import Mathlib

/-!
Verification of the HardWizChippy Resolution & Merge Engine
(`scraper/core/data_merger.py`, `scraper/core/cpu_matcher.py`,
`scraper/core/data_source.py`) against its natural-language specification.

Modelling conventions:
* Python strings are modelled as `String` / `List Char`; the regular
  expressions used by the source are compiled, pattern by pattern, into
  executable character-list functions with Python `re` semantics
  (leftmost match, greedy quantifiers, `^`/`$` anchoring, `IGNORECASE`
  via ASCII lowercasing).  The character classes `\s` and `\d` and
  `str.lower`/`str.strip` are modelled over their ASCII ranges, and `$`
  is modelled as end-of-string (CPU names contain no newline).
* Python floats are modelled as `ℚ`; every value the theorems pin down
  (0.0 and 1.0) is exactly representable, so no rounding is lost.
* Python's dynamic attribute dictionaries (`to_dict` / `setattr`) are
  modelled as association lists from field name to `Option Value`,
  where `Value` is the dynamic value type actually stored at runtime.
-/

/-- ASCII whitespace, the characters matched by `\s` / `str.split()` /
`str.strip()` on the names handled by the scraper. -/
def isWs (c : Char) : Bool :=
  c = ' ' ∨ c = '\t' ∨ c = '\n' ∨ c = '\r' ∨ c = '\x0b' ∨ c = '\x0c'

/-- ASCII model of `str.lower` on a single character. -/
def asciiLower (c : Char) : Char :=
  if 65 ≤ c.toNat ∧ c.toNat ≤ 90 then Char.ofNat (c.toNat + 32) else c

/-- ASCII model of `str.lower`. -/
def lowerStr (l : List Char) : List Char := l.map asciiLower

/-- Case-insensitive literal-pattern matching: if `pat` is a prefix of `l`
up to ASCII case, return the remainder of `l`. -/
def ciPfx : List Char → List Char → Option (List Char)
  | [], rest => some rest
  | _ :: _, [] => none
  | p :: ps, c :: cs => if asciiLower c = asciiLower p then ciPfx ps cs else none

/-- Python `str.strip()`: drop ASCII whitespace from both ends. -/
def trimWs (l : List Char) : List Char :=
  ((l.dropWhile isWs).reverse.dropWhile isWs).reverse

/-- Replace every maximal whitespace run by a single space: the effect of
`re.sub(r"\s+", " ", ·)`.  The boolean records whether the previous
character was inside a run. -/
def wsSubGo : Bool → List Char → List Char
  | _, [] => []
  | inRun, c :: rest =>
    if isWs c then
      (if inRun then wsSubGo true rest else ' ' :: wsSubGo true rest)
    else c :: wsSubGo false rest

/-- Replace every maximal run of `-`/`_` by a single space: the effect of
`re.sub(r'[-_]+', ' ', ·)` in `CPUNameMatcher.get_canonical_name`. -/
def dashSubGo : Bool → List Char → List Char
  | _, [] => []
  | inRun, c :: rest =>
    if c = '-' ∨ c = '_' then
      (if inRun then dashSubGo true rest else ' ' :: dashSubGo true rest)
    else c :: dashSubGo false rest

/-- Python `str.split()`: the whitespace-separated words of a string
(empty words dropped).  `cur` is the current word, reversed. -/
def wordsGo : List Char → List Char → List (List Char)
  | cur, [] => if cur.isEmpty then [] else [cur.reverse]
  | cur, c :: rest =>
    if isWs c then
      (if cur.isEmpty then wordsGo [] rest else cur.reverse :: wordsGo [] rest)
    else wordsGo (c :: cur) rest

/-- Join words with single spaces: Python `' '.join(l)`. -/
def joinSpace : List (List Char) → List Char
  | [] => []
  | [w] => w
  | w :: ws => w ++ ' ' :: joinSpace ws

/-- Python `' '.join(s.split())`, the whitespace normalization used by
`CPUNameMatcher.get_canonical_name`. -/
def joinSplit (l : List Char) : List Char := joinSpace (wordsGo [] l)

/-! ### The `STRIP_PATTERNS` of `CPUNameMatcher` (data_merger.py lines 71-78) -/

/-- Strip one occurrence of a case-insensitive word followed by at least one
whitespace character from the front: `re.sub(r'^(word)\s+', '', ·)`. -/
def stripPfxWord (w : List Char) (l : List Char) : List Char :=
  match ciPfx w l with
  | some rest =>
    match rest with
    | c :: _ => if isWs c then rest.dropWhile isWs else l
    | [] => l
  | none => l

/-- Pattern `^(intel|amd)\s+`: the alternation tries `intel` first, then
`amd`; the two alternatives start with different letters so at most one
can apply at the start of the string. -/
def stripMfrPat (l : List Char) : List Char :=
  match ciPfx "intel".data l with
  | some rest =>
    match rest with
    | c :: _ => if isWs c then rest.dropWhile isWs else l
    | [] => l
  | none => stripPfxWord "amd".data l

/-- Strip one trailing `\s+<w>$` (case-insensitive), working on the reversed
string: used for `\s+processor$` and (in `CpuMatcher`) `\s+CPU$`. -/
def stripSfxWord (w : List Char) (l : List Char) : List Char :=
  match ciPfx w.reverse l.reverse with
  | some rest =>
    match rest with
    | c :: _ => if isWs c then (rest.dropWhile isWs).reverse else l
    | [] => l
  | none => l

/-- Pattern `[®™©]`: delete every trademark glyph. -/
def stripTm (l : List Char) : List Char :=
  l.filter (fun c => ¬(c = '®' ∨ c = '™' ∨ c = '©'))

/-- Does `\([^)]+\)$` match here, i.e. is `l` of the shape
`'(' :: seg ++ [')']` with `seg` non-empty and free of `')'`? -/
def parenTail : List Char → Bool
  | '(' :: rest =>
    rest.getLast? = some ')' ∧ rest.dropLast ≠ [] ∧
      rest.dropLast.all (fun c => c ≠ ')')
  | _ => false

/-- Does `\s+\([^)]+\)$` match starting exactly at the head of `l`? -/
def parenAt (l : List Char) : Bool :=
  match l with
  | c :: _ => isWs c ∧ parenTail (l.dropWhile isWs)
  | [] => false

/-- Pattern `\s+\([^)]+\)$`: delete a trailing parenthetical, removing the
leftmost match (which necessarily extends to the end of the string). -/
def stripParen : List Char → List Char
  | [] => []
  | c :: rest => if parenAt (c :: rest) then [] else c :: stripParen rest

/-- Does `\s+w/\s+.*$` match starting exactly at the head of `l`? -/
def wSlashAt (l : List Char) : Bool :=
  match l with
  | c :: _ =>
    isWs c &&
      (match ciPfx "w/".data (l.dropWhile isWs) with
       | some rest2 => rest2.head?.elim false isWs
       | none => false)
  | [] => false

/-- Pattern `\s+w/\s+.*$`: cut from the leftmost match to the end. -/
def stripWSlash : List Char → List Char
  | [] => []
  | c :: rest => if wSlashAt (c :: rest) then [] else c :: stripWSlash rest

/-- Does `\s+with\s+.*$` match starting exactly at the head of `l`? -/
def withAt (l : List Char) : Bool :=
  match l with
  | c :: _ =>
    isWs c &&
      (match ciPfx "with".data (l.dropWhile isWs) with
       | some rest2 => rest2.head?.elim false isWs
       | none => false)
  | [] => false

/-- Pattern `\s+with\s+.*$`: cut from the leftmost match to the end. -/
def stripWith : List Char → List Char
  | [] => []
  | c :: rest => if withAt (c :: rest) then [] else c :: stripWith rest

/-- The six `STRIP_PATTERNS` of `CPUNameMatcher`, applied in source order,
followed by the `[-_]+` dash normalization (data_merger.py lines 106-110). -/
def canonStripChars (l : List Char) : List Char :=
  dashSubGo false
    (stripWith (stripWSlash (stripParen (stripTm
      (stripSfxWord "processor".data (stripMfrPat l))))))

/-- The character-level body of `CPUNameMatcher.get_canonical_name`
(data_merger.py lines 92-114): lowercase, strip patterns, normalize
dashes, collapse whitespace.  The memoization cache of the source is
semantically the identity and is not modelled. -/
def canonChars (l : List Char) : List Char :=
  joinSplit (canonStripChars (lowerStr l))

/-- `CPUNameMatcher.get_canonical_name`. -/
def getCanonicalName (s : String) : String := ⟨canonChars s.data⟩

/-! ### `CPUNameMatcher.MODEL_PATTERN` (data_merger.py lines 81-86)

Pattern `(core\s+)?(i[3579]|ultra\s+[579]|ryzen\s+[3579]|threadripper|athlon|epyc|xeon)[\s-]*(\d{3,5}[a-z]*)`
with `re.IGNORECASE`, used via `.search` (leftmost match).  The seven
alternatives of group 2 start with pairwise distinct letters, so the
alternation is deterministic; the optional `(core\s+)?` group does
backtrack (tried with the group first, then without). -/

/-- ASCII letter, the `[a-z]` class under `re.IGNORECASE`. -/
def isAsciiAlpha (c : Char) : Bool :=
  (65 ≤ c.toNat ∧ c.toNat ≤ 90) ∨ (97 ≤ c.toNat ∧ c.toNat ≤ 122)

/-- The `[\s-]` class. -/
def isWsDash (c : Char) : Bool := isWs c ∨ c = '-'

/-- Alternative `i[3579]`: returns (matched text, rest). -/
def altI : List Char → Option (List Char × List Char)
  | c1 :: c2 :: rest =>
    if asciiLower c1 = 'i' ∧ (c2 = '3' ∨ c2 = '5' ∨ c2 = '7' ∨ c2 = '9') then
      some ([c1, c2], rest)
    else none
  | _ => none

/-- Alternative `<word>\s+[<digits>]`: a literal word, at least one
whitespace character (greedily consumed), then one digit from `ds`. -/
def altWordDigit (w : List Char) (ds : List Char) (l : List Char) :
    Option (List Char × List Char) :=
  match ciPfx w l with
  | some rest =>
    let run := rest.takeWhile isWs
    if run.isEmpty then none
    else
      match rest.dropWhile isWs with
      | d :: rest2 =>
        if ds.contains d then some (l.take w.length ++ run ++ [d], rest2) else none
      | [] => none
  | none => none

/-- A plain literal alternative. -/
def altWord (w : List Char) (l : List Char) : Option (List Char × List Char) :=
  match ciPfx w l with
  | some rest => some (l.take w.length, rest)
  | none => none

/-- Group 2 of `MODEL_PATTERN`, alternatives in source order. -/
def famAlt (l : List Char) : Option (List Char × List Char) :=
  match altI l with
  | some r => some r
  | none =>
  match altWordDigit "ultra".data ['5', '7', '9'] l with
  | some r => some r
  | none =>
  match altWordDigit "ryzen".data ['3', '5', '7', '9'] l with
  | some r => some r
  | none =>
  match altWord "threadripper".data l with
  | some r => some r
  | none =>
  match altWord "athlon".data l with
  | some r => some r
  | none =>
  match altWord "epyc".data l with
  | some r => some r
  | none => altWord "xeon".data l

/-- Group 3, `\d{3,5}[a-z]*`: three to five digits (greedy) then letters.
When more than five digits are present the letter part is necessarily
empty (the sixth digit is not a letter), which the construction below
reproduces. -/
def modelNum (l : List Char) : Option (List Char) :=
  let ds := l.takeWhile Char.isDigit
  if ds.length < 3 then none
  else
    let d5 := ds.take 5
    let rest := l.drop d5.length
    some (d5 ++ rest.takeWhile isAsciiAlpha)

/-- Groups 2 and 3 with the separating `[\s-]*` (greedy; its characters
are never digits, so no backtracking arises). -/
def famModelAt (l : List Char) : Option (List Char × List Char) :=
  match famAlt l with
  | some (g2, rest2) =>
    match modelNum (rest2.dropWhile isWsDash) with
    | some g3 => some (g2, g3)
    | none => none
  | none => none

/-- Whole-pattern match at a fixed position: first with the optional
`(core\s+)?` group, falling back to the match without it. -/
def modelAt (l : List Char) : Option (List Char × List Char × List Char) :=
  let noCore : Option (List Char × List Char × List Char) :=
    match famModelAt l with
    | some (g2, g3) => some ([], g2, g3)
    | none => none
  match ciPfx "core".data l with
  | some rest =>
    let run := rest.takeWhile isWs
    if run.isEmpty then noCore
    else
      match famModelAt (rest.dropWhile isWs) with
      | some (g2, g3) => some (l.take 4 ++ run, g2, g3)
      | none => noCore
  | none => noCore

/-- `re.search`: leftmost position at which `MODEL_PATTERN` matches. -/
def modelSearch : List Char → Option (List Char × List Char × List Char)
  | [] => none
  | c :: rest =>
    match modelAt (c :: rest) with
    | some r => some r
    | none => modelSearch rest

/-- `CPUNameMatcher.extract_model_key` (data_merger.py lines 116-131):
`f"{family.strip()} {model}".strip().lower()` built from the match on the
canonical name, or `None` when the pattern does not match. -/
def extractModelKey (s : String) : Option String :=
  match modelSearch (canonChars s.data) with
  | some (g1, g2, g3) =>
    some ⟨lowerStr (trimWs (trimWs (g1 ++ g2) ++ ' ' :: g3))⟩
  | none => none

/-! ### `difflib.SequenceMatcher.ratio`

Modelled as `2*M/T` where `M` totals the sizes of the matching blocks
found by recursive longest-common-substring search (longest block,
ties broken towards the smallest index in `a`, then in `b` — the order
in which `difflib.find_longest_match` scans).  The `autojunk`
heuristics of `difflib` only activate for sequences of 200+ elements
and are not modelled.  No theorem below depends on a ratio value other
than at an empty input (where the ratio is exactly 0). -/

/-- Length of the common prefix of two suffixes. -/
def commonLen : List Char → List Char → Nat
  | a :: as_, b :: bs => if a = b then commonLen as_ bs + 1 else 0
  | _, _ => 0

/-- Scan the suffixes of `b` for the longest match against the fixed
suffix `sa` of `a`; strict improvement keeps the smallest `j`. -/
def scanB (sa : List Char) : List Char → Nat → Nat × Nat → Nat × Nat
  | [], _, best => best
  | b :: bs, j, (bj, bk) =>
    let k := commonLen sa (b :: bs)
    scanB sa bs (j + 1) (if bk < k then (j, k) else (bj, bk))

/-- Scan the suffixes of `a`; strict improvement keeps the smallest `i`. -/
def scanA (b : List Char) : List Char → Nat → Nat × Nat × Nat → Nat × Nat × Nat
  | [], _, best => best
  | a :: as_, i, (bi, bj, bk) =>
    let (j, k) := scanB (a :: as_) b 0 (0, 0)
    scanA b as_ (i + 1) (if bk < k then (i, j, k) else (bi, bj, bk))

/-- `find_longest_match` over the whole ranges (no junk). -/
def longestMatchBF (a b : List Char) : Nat × Nat × Nat :=
  scanA b a 0 (0, 0, 0)

/-- Total size of all matching blocks; the fuel (initially
`a.length + b.length`, enough since every recursive call strictly
shrinks the combined length) makes the recursion structural. -/
def matchTotalGo : Nat → List Char → List Char → Nat
  | 0, _, _ => 0
  | fuel + 1, a, b =>
    let (i, j, k) := longestMatchBF a b
    if k = 0 then 0
    else
      matchTotalGo fuel (a.take i) (b.take j) + k +
        matchTotalGo fuel (a.drop (i + k)) (b.drop (j + k))

def matchTotal (a b : List Char) : Nat := matchTotalGo (a.length + b.length) a b

/-- `SequenceMatcher(None, a, b).ratio()`. -/
def seqRatio (a b : String) : ℚ :=
  let la := a.data.length
  let lb := b.data.length
  if la + lb = 0 then 1 else (2 * matchTotal a.data b.data : ℚ) / (la + lb)

/-- Python truthiness of an `Optional[str]`: `None` and `""` are falsy. -/
def truthyStr : Option String → Bool
  | some k => ¬(k = "")
  | none => false

/-- `CPUNameMatcher.calculate_similarity` (data_merger.py lines 133-156). -/
def calculateSimilarity (name1 name2 : String) : ℚ :=
  let key1 := extractModelKey name1
  let key2 := extractModelKey name2
  if truthyStr key1 ∧ truthyStr key2 then
    if key1 = key2 then 1
    else seqRatio (key1.getD "") (key2.getD "")
  else
    let canonical1 := getCanonicalName name1
    let canonical2 := getCanonicalName name2
    if canonical1 = canonical2 then 1
    else seqRatio canonical1 canonical2

/-! ### `CpuMatcher.normalize` (cpu_matcher.py lines 58-82)

Manufacturer-prefix patterns (in source order) `^AMD\s+`, `^Intel\s+`,
`^Intel\(R\)\s+`, `^AMD\(R\)\s+`, then the suffix patterns (in source
order) `\s+Processor$`, `\s+CPU$`, `\s+\d+-Core\s+Processor$`,
`\s+@ [\d.]+\s*GHz$`, `\s+with Radeon.*$`, all `re.IGNORECASE`, then
`re.sub(r"\s+", " ", ·).strip().lower()`. -/

/-- Pattern `\s+\d+-Core\s+Processor$`, parsed from the reversed string:
`"rossecorp"` is `"processor"` reversed and `"eroc-"` is `"-core"`
reversed. -/
def stripCoreProc (l : List Char) : List Char :=
  match ciPfx "rossecorp".data l.reverse with
  | some r1 =>
    if r1.head?.elim false isWs then
      match ciPfx "eroc-".data (r1.dropWhile isWs) with
      | some r2 =>
        let ds := r2.takeWhile Char.isDigit
        if ds.isEmpty then l
        else
          let r3 := r2.dropWhile Char.isDigit
          if r3.head?.elim false isWs then (r3.dropWhile isWs).reverse else l
      | none => l
    else l
  | none => l

/-- Pattern `\s+@ [\d.]+\s*GHz$`, parsed from the reversed string: the
literal `"@ "` holds exactly one space, `\s*` may be empty and `[\d.]+`
needs at least one digit or dot. -/
def stripGhz (l : List Char) : List Char :=
  match ciPfx "zhg".data l.reverse with
  | some r1 =>
    let r2 := r1.dropWhile isWs
    let ds := r2.takeWhile (fun c => Char.isDigit c ∨ c = '.')
    if ds.isEmpty then l
    else
      match r2.drop ds.length with
      | ' ' :: '@' :: r4 =>
        if r4.head?.elim false isWs then (r4.dropWhile isWs).reverse else l
      | _ => l
  | none => l

/-- Does `\s+with Radeon.*$` match starting exactly at the head of `l`?
The pattern contains a literal single space between the two words. -/
def withRadeonAt (l : List Char) : Bool :=
  match l with
  | c :: _ => isWs c && (ciPfx "with radeon".data (l.dropWhile isWs)).isSome
  | [] => false

/-- Pattern `\s+with Radeon.*$`: cut from the leftmost match to the end. -/
def stripWithRadeon : List Char → List Char
  | [] => []
  | c :: rest => if withRadeonAt (c :: rest) then [] else c :: stripWithRadeon rest

/-- The four `MANUFACTURER_PREFIXES` of `CpuMatcher`, in source order. -/
def mfrPhase (l : List Char) : List Char :=
  stripPfxWord "amd(r)".data
    (stripPfxWord "intel(r)".data
      (stripPfxWord "intel".data
        (stripPfxWord "amd".data l)))

/-- The five `SUFFIX_PATTERNS` of `CpuMatcher`, in source (dict) order. -/
def sfxPhase (l : List Char) : List Char :=
  stripWithRadeon (stripGhz (stripCoreProc
    (stripSfxWord "cpu".data (stripSfxWord "processor".data l))))

/-- The full pattern phase of `CpuMatcher.normalize` (prefixes then
suffixes), exposed separately because the conditional-idempotence
theorem for claim C4 is stated in terms of it. -/
def normStripPhaseChars (l : List Char) : List Char := sfxPhase (mfrPhase l)

/-- `CpuMatcher.normalize` (cpu_matcher.py lines 58-82).  The `if not
name` guard returns `""` for the empty string; `None` input is outside
the declared `str` type. -/
def normalizeName (s : String) : String :=
  if s = "" then ""
  else ⟨lowerStr (trimWs (wsSubGo false (normStripPhaseChars (trimWs s.data))))⟩

/-- String-level wrapper for the pattern phase of `CpuMatcher.normalize`. -/
def normStripPhase (s : String) : String := ⟨normStripPhaseChars s.data⟩

/-- The pattern phase of `CPUNameMatcher.get_canonical_name`: the six
`STRIP_PATTERNS` followed by the `[-_]+` substitution, exposed for the
conditional-idempotence theorem of claim C4. -/
def canonStripPhase (s : String) : String := ⟨canonStripChars s.data⟩

/-! ### Data model (`scraper/core/data_source.py`)

`CPUSpecification` is a Python dataclass whose ~44 specification fields
are `Optional[...]` and are moved around dynamically through
`to_dict()` / `setattr` (the type annotations are not enforced at
runtime).  Each optional field is therefore modelled as an
`Option Value` with `Value` the dynamic runtime value type; `to_dict`
becomes an association list in dataclass field order, with
`manufacturer` serialized through `.value`, `scraped_at` through
`.isoformat()` (modelled as carrying the ISO string directly) and
`raw_data` skipped. -/

/-- A dynamic Python value as stored in a specification field.  Python's
`bool` is a subclass of `int`; the merge logic only reaches the
numeric branches on genuinely numeric fields, so `.b` is kept a
separate constructor. -/
inductive Value where
  | s : String → Value
  | i : Int → Value
  | f : ℚ → Value
  | b : Bool → Value
deriving DecidableEq, Repr

/-- `Manufacturer` enum. -/
inductive Manufacturer where
  | intel
  | amd
  | other
deriving DecidableEq, Repr

/-- The `.value` string of the enum member. -/
def Manufacturer.value : Manufacturer → String
  | .intel => "Intel"
  | .amd => "AMD"
  | .other => "Other"

/-- `Manufacturer(string)` enum lookup; `none` models the `ValueError`
raised on an unknown value. -/
def Manufacturer.fromValue (v : String) : Option Manufacturer :=
  if v = "Intel" then some .intel
  else if v = "AMD" then some .amd
  else if v = "Other" then some .other
  else none

/-- `DataSourcePriority` enum (data_source.py lines 29-37). -/
inductive DataSourcePriority where
  | official
  | primary
  | secondary
  | benchmark
deriving DecidableEq, Repr

/-- Numeric `.value` of the priority tier. -/
def DataSourcePriority.value : DataSourcePriority → Nat
  | .official => 1
  | .primary => 2
  | .secondary => 3
  | .benchmark => 4

/-- `CPUSpecification` (data_source.py lines 40-125).  Field order is the
dataclass declaration order.  `scraped_at` carries the ISO timestamp
string (`datetime.now()` is wall-clock and irrelevant to merge logic);
`raw_data` is opaque audit data skipped by `to_dict`. -/
structure CPUSpecification where
  name : String
  manufacturer : Manufacturer
  source : String
  source_url : Option Value := none
  source_id : Option Value := none
  cores : Option Value := none
  threads : Option Value := none
  p_cores : Option Value := none
  e_cores : Option Value := none
  base_clock : Option Value := none
  boost_clock : Option Value := none
  p_core_base_clock : Option Value := none
  p_core_boost_clock : Option Value := none
  e_core_base_clock : Option Value := none
  e_core_boost_clock : Option Value := none
  l1_cache : Option Value := none
  l2_cache : Option Value := none
  l3_cache : Option Value := none
  tdp : Option Value := none
  base_power : Option Value := none
  max_turbo_power : Option Value := none
  codename : Option Value := none
  microarchitecture : Option Value := none
  generation : Option Value := none
  socket_name : Option Value := none
  process_node : Option Value := none
  transistors_million : Option Value := none
  die_size_mm2 : Option Value := none
  memory_type : Option Value := none
  memory_channels : Option Value := none
  max_memory_gb : Option Value := none
  memory_speed : Option Value := none
  has_integrated_gpu : Option Value := none
  integrated_gpu_name : Option Value := none
  pcie_version : Option Value := none
  pcie_lanes : Option Value := none
  launch_date : Option Value := none
  launch_msrp : Option Value := none
  is_released : Option Value := none
  is_discontinued : Option Value := none
  geekbench_single : Option Value := none
  geekbench_multi : Option Value := none
  passmark_single : Option Value := none
  passmark_multi : Option Value := none
  cinebench_single : Option Value := none
  cinebench_multi : Option Value := none
  image_url : Option Value := none
  scraped_at : String := ""
  raw_data : List (String × Value) := []
deriving DecidableEq, Repr

/-- The dictionary produced by `CPUSpecification.to_dict`
(data_source.py lines 127-139). -/
abbrev FieldDict := List (String × Option Value)

/-- Association-list lookup (`d[k]` presence included). -/
def alGet? {α : Type} : List (String × α) → String → Option α
  | [], _ => none
  | (k, v) :: rest, key => if k = key then some v else alGet? rest key

/-- Python `dict` assignment `d[k] = v`: overwrite in place, or append a
new key (Python dicts preserve insertion order). -/
def alSet {α : Type} : List (String × α) → String → α → List (String × α)
  | [], key, v => [(key, v)]
  | (k, w) :: rest, key, v =>
    if k = key then (k, v) :: rest else (k, w) :: alSet rest key v

/-- Python `d.get(field)` on a `FieldDict`: `None` both for a missing key
and for a stored `None`. -/
def FieldDict.getV (d : FieldDict) (key : String) : Option Value :=
  (alGet? d key).join

/-- `CPUSpecification.to_dict` (data_source.py lines 127-139):
`manufacturer` via `.value`, `scraped_at` via `.isoformat()`,
`raw_data` skipped, everything else verbatim in field order. -/
def toDict (sp : CPUSpecification) : FieldDict :=
  [("name", some (.s sp.name)),
   ("manufacturer", some (.s sp.manufacturer.value)),
   ("source", some (.s sp.source)),
   ("source_url", sp.source_url),
   ("source_id", sp.source_id),
   ("cores", sp.cores),
   ("threads", sp.threads),
   ("p_cores", sp.p_cores),
   ("e_cores", sp.e_cores),
   ("base_clock", sp.base_clock),
   ("boost_clock", sp.boost_clock),
   ("p_core_base_clock", sp.p_core_base_clock),
   ("p_core_boost_clock", sp.p_core_boost_clock),
   ("e_core_base_clock", sp.e_core_base_clock),
   ("e_core_boost_clock", sp.e_core_boost_clock),
   ("l1_cache", sp.l1_cache),
   ("l2_cache", sp.l2_cache),
   ("l3_cache", sp.l3_cache),
   ("tdp", sp.tdp),
   ("base_power", sp.base_power),
   ("max_turbo_power", sp.max_turbo_power),
   ("codename", sp.codename),
   ("microarchitecture", sp.microarchitecture),
   ("generation", sp.generation),
   ("socket_name", sp.socket_name),
   ("process_node", sp.process_node),
   ("transistors_million", sp.transistors_million),
   ("die_size_mm2", sp.die_size_mm2),
   ("memory_type", sp.memory_type),
   ("memory_channels", sp.memory_channels),
   ("max_memory_gb", sp.max_memory_gb),
   ("memory_speed", sp.memory_speed),
   ("has_integrated_gpu", sp.has_integrated_gpu),
   ("integrated_gpu_name", sp.integrated_gpu_name),
   ("pcie_version", sp.pcie_version),
   ("pcie_lanes", sp.pcie_lanes),
   ("launch_date", sp.launch_date),
   ("launch_msrp", sp.launch_msrp),
   ("is_released", sp.is_released),
   ("is_discontinued", sp.is_discontinued),
   ("geekbench_single", sp.geekbench_single),
   ("geekbench_multi", sp.geekbench_multi),
   ("passmark_single", sp.passmark_single),
   ("passmark_multi", sp.passmark_multi),
   ("cinebench_single", sp.cinebench_single),
   ("cinebench_multi", sp.cinebench_multi),
   ("image_url", sp.image_url),
   ("scraped_at", some (.s sp.scraped_at))]

/-! ### `MergeConfig` and `DataMerger` (data_merger.py lines 32-57, 182-409) -/

/-- `MergeConfig` (data_merger.py lines 32-57).  The Python field sets are
modelled as lists (only membership is ever used). -/
structure MergeConfig where
  name_match_threshold : ℚ := 0.85
  prefer_official_sources : Bool := true
  protected_fields : List String := ["name", "manufacturer", "source", "source_id"]
  prefer_higher_fields : List String :=
    ["geekbench_single", "geekbench_multi", "passmark_single", "passmark_multi",
     "cinebench_single", "cinebench_multi"]
  prefer_recent_fields : List String := ["current_price", "is_discontinued"]
deriving DecidableEq, Repr

/-- Constructing `MergeConfig(name_match_threshold=t)`.  The dataclass has
no `__post_init__` and performs no validation of any kind, so
construction always succeeds; the `Except` return type only exists so
that the absence of a validation error is expressible. -/
def makeMergeConfig (t : ℚ) : Except String MergeConfig :=
  .ok { name_match_threshold := t }

/-- The `DataMerger.stats` dictionary (data_merger.py lines 196-201):
its only keys are `total_input`, `merged`, `conflicts_resolved` and
`gaps_filled`. -/
structure Stats where
  total_input : Nat := 0
  merged : Nat := 0
  conflicts_resolved : Nat := 0
  gaps_filled : Nat := 0
deriving DecidableEq, Repr

/-- `DataMerger._get_source_priority` (data_merger.py lines 306-315). -/
def getSourcePriority (sp : CPUSpecification) : Nat :=
  if sp.source = "intel_ark" then 1
  else if sp.source = "amd_specs" then 1
  else if sp.source = "techpowerup" then 2
  else if sp.source = "geekbench" then 3
  else if sp.source = "passmark" then 3
  else 10

/-- Stable insertion step: `x` goes before the first element with a
strictly larger key, after elements with an equal key. -/
def insertPr {α : Type} (f : α → Nat) (x : α) : List α → List α
  | [] => [x]
  | y :: rest => if f x ≤ f y then x :: y :: rest else y :: insertPr f x rest

/-- Python `sorted(·, key=f)`: a stable sort by `f`. -/
def sortPr {α : Type} (f : α → Nat) : List α → List α
  | [] => []
  | x :: rest => insertPr f x (sortPr f rest)

/-- Is a value numeric, i.e. `isinstance(v, (int, float))` for a genuine
number?  (Python's `bool` would also pass `isinstance(·, int)`; the
numeric conflict branches are only reached on numeric fields, see
`Value`.) -/
def Value.isNumeric : Value → Bool
  | .i _ => true
  | .f _ => true
  | _ => false

/-- Numeric value for comparison. -/
def Value.num : Value → ℚ
  | .i n => (n : ℚ)
  | .f q => q
  | _ => 0

/-- Python `max(value1, value2)`: the first argument wins ties. -/
def maxNum (v1 v2 : Value) : Value := if v1.num < v2.num then v2 else v1

/-- `DataMerger._resolve_conflict` (data_merger.py lines 317-352).  The
numeric-disagreement branch only logs a debug message and falls through
to `return value1`. -/
def resolveConflict (cfg : MergeConfig) (field : String) (v1 v2 : Value) : Value :=
  if field ∈ cfg.prefer_higher_fields ∧ v1.isNumeric ∧ v2.isNumeric then
    maxNum v1 v2
  else
    match v1, v2 with
    | .b b1, .b b2 =>
      if field = "is_discontinued" then .b (b1 || b2)
      else if field = "has_integrated_gpu" then .b (b1 || b2)
      else .b b1
    | _, _ => v1

/-- One iteration of the field loop of `DataMerger._merge_group`
(data_merger.py lines 270-290): protected fields skipped, `None`
incoming values skipped, gap-fill on a `None` current value, conflict
resolution otherwise. -/
def mergeFieldStep (cfg : MergeConfig) (acc : FieldDict × Stats)
    (kv : String × Option Value) : FieldDict × Stats :=
  let d := acc.1
  let st := acc.2
  if kv.1 ∈ cfg.protected_fields then (d, st)
  else
    match kv.2 with
    | none => (d, st)
    | some v =>
      match d.getV kv.1 with
      | none => (alSet d kv.1 (some v), { st with gaps_filled := st.gaps_filled + 1 })
      | some cur =>
        if cur ≠ v then
          let resolved := resolveConflict cfg kv.1 cur v
          if resolved ≠ cur then
            (alSet d kv.1 (some resolved),
             { st with conflicts_resolved := st.conflicts_resolved + 1 })
          else (d, st)
        else (d, st)

/-- The inner field loop of `DataMerger._merge_group` for one
lower-priority spec (data_merger.py lines 267-290). -/
def mergeStep (cfg : MergeConfig) (acc : FieldDict × Stats) (specDict : FieldDict) :
    FieldDict × Stats :=
  specDict.foldl (mergeFieldStep cfg) acc

/-- Python `','.join(l)`. -/
def joinComma : List String → String
  | [] => ""
  | [x] => x
  | x :: xs => x ++ "," ++ joinComma xs

/-- Extract a string value. -/
def asStr : Option Value → Option String
  | some (.s v) => some v
  | _ => none

/-- Rebuilding the merged `CPUSpecification` from the merged dictionary
(data_merger.py lines 292-304): the constructor receives
`result_dict['name']`, `Manufacturer(result_dict['manufacturer'])`
guarded by truthiness of the stored string (`.getD base.manufacturer`
models the unreachable `ValueError`: the protected field always holds
the base's valid enum value), and the composite source label; every
other field is then copied from the dictionary via `setattr`
(`name`/`manufacturer`/`source` excluded), leaving `raw_data` at its
default. -/
def mkMerged (base : CPUSpecification) (sortedGroup : List CPUSpecification)
    (d : FieldDict) : CPUSpecification :=
  { name := (asStr (d.getV "name")).getD ""
    manufacturer :=
      match d.getV "manufacturer" with
      | some (.s v) =>
        if v = "" then base.manufacturer
        else (Manufacturer.fromValue v).getD base.manufacturer
      | _ => base.manufacturer
    source := "merged(" ++ joinComma (sortedGroup.map (·.source)) ++ ")"
    source_url := d.getV "source_url"
    source_id := d.getV "source_id"
    cores := d.getV "cores"
    threads := d.getV "threads"
    p_cores := d.getV "p_cores"
    e_cores := d.getV "e_cores"
    base_clock := d.getV "base_clock"
    boost_clock := d.getV "boost_clock"
    p_core_base_clock := d.getV "p_core_base_clock"
    p_core_boost_clock := d.getV "p_core_boost_clock"
    e_core_base_clock := d.getV "e_core_base_clock"
    e_core_boost_clock := d.getV "e_core_boost_clock"
    l1_cache := d.getV "l1_cache"
    l2_cache := d.getV "l2_cache"
    l3_cache := d.getV "l3_cache"
    tdp := d.getV "tdp"
    base_power := d.getV "base_power"
    max_turbo_power := d.getV "max_turbo_power"
    codename := d.getV "codename"
    microarchitecture := d.getV "microarchitecture"
    generation := d.getV "generation"
    socket_name := d.getV "socket_name"
    process_node := d.getV "process_node"
    transistors_million := d.getV "transistors_million"
    die_size_mm2 := d.getV "die_size_mm2"
    memory_type := d.getV "memory_type"
    memory_channels := d.getV "memory_channels"
    max_memory_gb := d.getV "max_memory_gb"
    memory_speed := d.getV "memory_speed"
    has_integrated_gpu := d.getV "has_integrated_gpu"
    integrated_gpu_name := d.getV "integrated_gpu_name"
    pcie_version := d.getV "pcie_version"
    pcie_lanes := d.getV "pcie_lanes"
    launch_date := d.getV "launch_date"
    launch_msrp := d.getV "launch_msrp"
    is_released := d.getV "is_released"
    is_discontinued := d.getV "is_discontinued"
    geekbench_single := d.getV "geekbench_single"
    geekbench_multi := d.getV "geekbench_multi"
    passmark_single := d.getV "passmark_single"
    passmark_multi := d.getV "passmark_multi"
    cinebench_single := d.getV "cinebench_single"
    cinebench_multi := d.getV "cinebench_multi"
    image_url := d.getV "image_url"
    scraped_at := (asStr (d.getV "scraped_at")).getD ""
    raw_data := [] }

/-- `DataMerger._merge_group` (data_merger.py lines 253-304).  `none`
models the `IndexError` (`group[0]`) on an empty group, unreachable
from `merge`. -/
def mergeGroup (cfg : MergeConfig) (st : Stats) (group : List CPUSpecification) :
    Option (CPUSpecification × Stats) :=
  match sortPr getSourcePriority group with
  | [] => none
  | base :: rest =>
    let acc := rest.foldl (fun acc sp => mergeStep cfg acc (toDict sp)) (toDict base, st)
    some (mkMerged base (sortPr getSourcePriority group) acc.1, acc.2)

/-- The grouping key of one record (data_merger.py lines 229-230):
`extract_model_key(...) or get_canonical_name(...)`, where Python's
`or` falls back when the key is `None` or the empty string. -/
def groupKey (sp : CPUSpecification) : String :=
  let canonical := getCanonicalName sp.name
  match extractModelKey sp.name with
  | some k => if k = "" then canonical else k
  | none => canonical

/-- The `defaultdict(list)` of groups, in key insertion order. -/
abbrev Groups := List (String × List CPUSpecification)

/-- `groups[key].append(spec)`. -/
def Groups.add : Groups → String → CPUSpecification → Groups
  | [], key, sp => [(key, [sp])]
  | (k, l) :: rest, key, sp =>
    if k = key then (k, l ++ [sp]) :: rest else (k, l) :: Groups.add rest key sp

/-- The grouping phase of `DataMerger.merge` (data_merger.py lines
219-231): sort the source lists by priority value, then bucket every
record by its `groupKey`. -/
def mergeGroups
    (specLists : List (String × DataSourcePriority × List CPUSpecification)) : Groups :=
  (sortPr (fun x => x.2.1.value) specLists).foldl
    (fun gs entry => entry.2.2.foldl (fun gs sp => Groups.add gs (groupKey sp) sp) gs)
    []

/-- `DataMerger.merge` (data_merger.py lines 203-251): group, then emit
singleton groups unchanged and merge the rest.  The `none` branch of
`mergeGroup` is unreachable (every group holds at least one record). -/
def merge (cfg : MergeConfig)
    (specLists : List (String × DataSourcePriority × List CPUSpecification)) :
    List CPUSpecification × Stats :=
  let sortedLists := sortPr (fun x => x.2.1.value) specLists
  let st1 : Stats := { total_input := (sortedLists.map (fun x => x.2.2.length)).sum }
  (mergeGroups specLists).foldl
    (fun acc kg =>
      match kg.2 with
      | [sp] => (acc.1 ++ [sp], acc.2)
      | g =>
        match mergeGroup cfg acc.2 g with
        | some (m, st') => (acc.1 ++ [m], { st' with merged := st'.merged + 1 })
        | none => acc)
    ([], st1)

/-! ### `DataMerger.fill_gaps` (data_merger.py lines 354-409) -/

/-- The secondary index of `fill_gaps` (lines 365-369): later specs with
the same key overwrite earlier ones; records with a falsy key (`None`
or `""`) are not indexed. -/
def buildSecondaryIndex (secondary : List CPUSpecification) :
    List (String × CPUSpecification) :=
  secondary.foldl
    (fun idx sp =>
      match extractModelKey sp.name with
      | some k => if k = "" then idx else alSet idx k sp
      | none => idx)
    []

/-- The lookup of lines 373-374: `secondary_index.get(key) if key else
None`. -/
def lookupSecondary (idx : List (String × CPUSpecification))
    (sp : CPUSpecification) : Option CPUSpecification :=
  match extractModelKey sp.name with
  | some k => if k = "" then none else alGet? idx k
  | none => none

/-- The field loop of `DataMerger._fill_spec_gaps` (lines 392-397):
protected fields skipped, and a secondary value is taken only when the
primary's current value is `None` and the incoming value is not. -/
def fillFieldStep (cfg : MergeConfig) (acc : FieldDict × Stats)
    (kv : String × Option Value) : FieldDict × Stats :=
  let d := acc.1
  let st := acc.2
  if kv.1 ∈ cfg.protected_fields then (d, st)
  else
    match d.getV kv.1, kv.2 with
    | none, some v =>
      (alSet d kv.1 (some v), { st with gaps_filled := st.gaps_filled + 1 })
    | _, _ => (d, st)

/-- The whole field loop of `_fill_spec_gaps` over the secondary's
dictionary. -/
def fillFold (cfg : MergeConfig) (acc : FieldDict × Stats) (secondaryDict : FieldDict) :
    FieldDict × Stats :=
  secondaryDict.foldl (fillFieldStep cfg) acc

/-- Rebuilding the filled `CPUSpecification` (lines 399-409): the
constructor receives the primary's `name`, `manufacturer` and `source`
objects directly; every other field is copied from the filled
dictionary via `setattr`. -/
def mkFilled (primary : CPUSpecification) (d : FieldDict) : CPUSpecification :=
  { name := primary.name
    manufacturer := primary.manufacturer
    source := primary.source
    source_url := d.getV "source_url"
    source_id := d.getV "source_id"
    cores := d.getV "cores"
    threads := d.getV "threads"
    p_cores := d.getV "p_cores"
    e_cores := d.getV "e_cores"
    base_clock := d.getV "base_clock"
    boost_clock := d.getV "boost_clock"
    p_core_base_clock := d.getV "p_core_base_clock"
    p_core_boost_clock := d.getV "p_core_boost_clock"
    e_core_base_clock := d.getV "e_core_base_clock"
    e_core_boost_clock := d.getV "e_core_boost_clock"
    l1_cache := d.getV "l1_cache"
    l2_cache := d.getV "l2_cache"
    l3_cache := d.getV "l3_cache"
    tdp := d.getV "tdp"
    base_power := d.getV "base_power"
    max_turbo_power := d.getV "max_turbo_power"
    codename := d.getV "codename"
    microarchitecture := d.getV "microarchitecture"
    generation := d.getV "generation"
    socket_name := d.getV "socket_name"
    process_node := d.getV "process_node"
    transistors_million := d.getV "transistors_million"
    die_size_mm2 := d.getV "die_size_mm2"
    memory_type := d.getV "memory_type"
    memory_channels := d.getV "memory_channels"
    max_memory_gb := d.getV "max_memory_gb"
    memory_speed := d.getV "memory_speed"
    has_integrated_gpu := d.getV "has_integrated_gpu"
    integrated_gpu_name := d.getV "integrated_gpu_name"
    pcie_version := d.getV "pcie_version"
    pcie_lanes := d.getV "pcie_lanes"
    launch_date := d.getV "launch_date"
    launch_msrp := d.getV "launch_msrp"
    is_released := d.getV "is_released"
    is_discontinued := d.getV "is_discontinued"
    geekbench_single := d.getV "geekbench_single"
    geekbench_multi := d.getV "geekbench_multi"
    passmark_single := d.getV "passmark_single"
    passmark_multi := d.getV "passmark_multi"
    cinebench_single := d.getV "cinebench_single"
    cinebench_multi := d.getV "cinebench_multi"
    image_url := d.getV "image_url"
    scraped_at := (asStr (d.getV "scraped_at")).getD ""
    raw_data := [] }

/-- `DataMerger._fill_spec_gaps` (data_merger.py lines 383-409). -/
def fillSpecGaps (cfg : MergeConfig) (st : Stats)
    (primary secondary : CPUSpecification) : CPUSpecification × Stats :=
  let acc := fillFold cfg (toDict primary, st) (toDict secondary)
  (mkFilled primary acc.1, acc.2)

/-- `DataMerger.fill_gaps` (data_merger.py lines 354-381). -/
def fillGaps (cfg : MergeConfig) (st : Stats)
    (primary secondary : List CPUSpecification) : List CPUSpecification × Stats :=
  let idx := buildSecondaryIndex secondary
  primary.foldl
    (fun acc sp =>
      match lookupSecondary idx sp with
      | some s2 =>
        let r := fillSpecGaps cfg acc.2 sp s2
        (acc.1 ++ [r.1], r.2)
      | none => (acc.1 ++ [sp], acc.2))
    ([], st)

/-! ### Claim C7: `merge` on a record whose `name` is `None`

The dataclass annotates `name : str`, but Python does not enforce the
annotation, so a record with `name=None` can reach `merge`.  The
grouping loop then calls `get_canonical_name(None)`, whose first
statement after the cache miss is `name.lower()` — an `AttributeError`.
This wrapper model rechecks that attribute access; only the `name`
attribute of such a record is ever touched by the grouping loop. -/

/-- A record as `merge` actually receives it: the `name` attribute may be
`None`. -/
structure RawSpec where
  name : Option String
deriving DecidableEq, Repr

/-- `get_canonical_name(name)` with the `name.lower()` attribute access
checked: `None.lower()` raises `AttributeError`. -/
def getCanonicalNameChecked : Option String → Except String String
  | none => .error "AttributeError"
  | some s => .ok (getCanonicalName s)

/-- `extract_model_key(name)` begins with `get_canonical_name(name)` and
therefore raises on `None` as well. -/
def extractModelKeyChecked : Option String → Except String (Option String)
  | none => .error "AttributeError"
  | some s => .ok (extractModelKey s)

/-- Groups of raw records. -/
abbrev RawGroups := List (String × List RawSpec)

/-- `groups[key].append(spec)` for raw records. -/
def RawGroups.add : RawGroups → String → RawSpec → RawGroups
  | [], key, sp => [(key, [sp])]
  | (k, l) :: rest, key, sp =>
    if k = key then (k, l ++ [sp]) :: rest else (k, l) :: RawGroups.add rest key sp

/-- The grouping phase of `DataMerger.merge` (lines 219-231) with the
Python attribute accesses made explicit: the first record whose `name`
is `None` aborts the whole batch with an `AttributeError`. -/
def groupRawChecked
    (specLists : List (String × DataSourcePriority × List RawSpec)) :
    Except String (RawGroups × Stats) :=
  (sortPr (fun x => x.2.1.value) specLists).foldlM
    (fun (acc : RawGroups × Stats)
         (entry : String × DataSourcePriority × List RawSpec) =>
      entry.2.2.foldlM
        (fun (acc : RawGroups × Stats) (sp : RawSpec) => do
          let canonical ← getCanonicalNameChecked sp.name
          let mk ← extractModelKeyChecked sp.name
          let key := match mk with
            | some k => if k = "" then canonical else k
            | none => canonical
          pure (RawGroups.add acc.1 key sp, acc.2))
        ({ acc.2 with total_input := acc.2.total_input + entry.2.2.length }, acc.1).swap)
    ([], ({} : Stats))

/-- Number of non-`None` entries in a record's field dictionary. -/
def countNonNull (sp : CPUSpecification) : Nat :=
  ((toDict sp).filter (fun kv => kv.2.isSome)).length


/-- A sample official-source record (used by concrete witnesses). -/
def sampleOfficial : CPUSpecification :=
  { name := "Intel Core i9-14900K", manufacturer := .intel, source := "intel_ark",
    source_id := some (.s "ark-236773"), cores := some (.i 24), tdp := some (.i 125) }

/-- A sample third-party record for the same CPU (used by concrete
witnesses). -/
def sampleSecondary : CPUSpecification :=
  { name := "Core i9-14900K", manufacturer := .intel, source := "techpowerup",
    cores := some (.i 24), l3_cache := some (.i 36864),
    transistors_million := some (.i 8000) }


/-- The key list of every `to_dict` dictionary, in dataclass field order. -/
def fieldKeys : List String :=
  ["name", "manufacturer", "source", "source_url", "source_id", "cores", "threads", "p_cores", "e_cores", "base_clock", "boost_clock", "p_core_base_clock", "p_core_boost_clock", "e_core_base_clock", "e_core_boost_clock", "l1_cache", "l2_cache", "l3_cache", "tdp", "base_power", "max_turbo_power", "codename", "microarchitecture", "generation", "socket_name", "process_node", "transistors_million", "die_size_mm2", "memory_type", "memory_channels", "max_memory_gb", "memory_speed", "has_integrated_gpu", "integrated_gpu_name", "pcie_version", "pcie_lanes", "launch_date", "launch_msrp", "is_released", "is_discontinued", "geekbench_single", "geekbench_multi", "passmark_single", "passmark_multi", "cinebench_single", "cinebench_multi", "image_url", "scraped_at"]

/-- Canonical-whitespace predicate: every whitespace character is a plain
space and no two whitespace characters are adjacent.  Strings produced by
the `re.sub(r"\s+", " ", ·)` phase of `CpuMatcher.normalize` satisfy it,
and on such strings that phase is the identity; used by the
conditional-idempotence theorem for claim C4. -/
def noWsRun : List Char → Bool
  | [] => true
  | [c] => !isWs c || c = ' '
  | c :: d :: rest => (!isWs c || (c = ' ' && !isWs d)) && noWsRun (d :: rest)

/-! ### Claim theorems -/

/-- Claim C1: model-key consistency.  The three names for the same SKU —
with the manufacturer prefix, bare, and with the `Processor` suffix —
all extract the identical non-null model key `"core ultra 9 285k"`. -/
theorem C1_model_key_consistency :
    extractModelKey "Intel Core Ultra 9 285K" = some "core ultra 9 285k" ∧
    extractModelKey "Core Ultra 9 285K" = some "core ultra 9 285k" ∧
    extractModelKey "Core Ultra 9 285K Processor" = some "core ultra 9 285k" :=
  ⟨rfl, rfl, rfl⟩

/-- Claim C7: contrary to the claim, `merge` does not skip a record whose
`name` is `None`: the grouping loop calls `get_canonical_name(None)`,
which evaluates `None.lower()` and raises `AttributeError`, aborting
the whole batch (and the stats dictionary has no `skipped` key at
all).  Evaluating the grouping phase at the failing input shows the
raised exception. -/
theorem C7_merge_raises_on_missing_name :
    groupRawChecked [("intel_ark", DataSourcePriority.official,
      [{ name := some "Intel Core i9-14900K" }, { name := none }])] =
      .error "AttributeError" := rfl

/-- Claim C8, counterexample: constructing `MergeConfig` with
`name_match_threshold = 5.0`, well outside `[0, 1]`, succeeds — the
dataclass performs no validation, so the claimed fail-fast validation
error does not exist. -/
theorem C8_config_no_validation :
    makeMergeConfig 5 = .ok { name_match_threshold := 5 } ∧ ¬((5 : ℚ) ≤ 1) :=
  ⟨rfl, by norm_num⟩

/-- Claim C8, amended: `MergeConfig` construction accepts every
`name_match_threshold` value, inside or outside `[0, 1]`, and never
raises a validation error. -/
theorem C8_config_accepts_any_threshold (t : ℚ) :
    makeMergeConfig t = .ok { name_match_threshold := t } := rfl

/-- Claim C6, counterexample: with both names empty the similarity scorer
returns `1.0`, not `0.0` — both canonical forms are the empty string,
which compares equal before the fallback ratio is reached. -/
theorem C6_empty_input_not_zero :
    calculateSimilarity "" "" = 1 ∧ calculateSimilarity "" "" ≠ 0 := by
  refine ⟨by decide, by decide⟩

/-- Claim C4, counterexample: `CpuMatcher.normalize` is not idempotent.
Each pass strips a single anchored `^AMD\s+` prefix, so a name with a
doubled manufacturer prefix keeps changing on the second pass. -/
theorem C4_normalize_not_idempotent :
    normalizeName (normalizeName "AMD AMD Ryzen 5 5600") ≠
      normalizeName "AMD AMD Ryzen 5 5600" := by decide

/-! ### Helper lemmas: model keys are never the empty string -/

theorem isWs_false_of_isDigit {c : Char} (h : c.isDigit = true) : isWs c = false := by
  simp only [Char.isDigit] at h
  simp only [isWs]
  rw [decide_eq_false_iff_not]
  rintro (rfl | rfl | rfl | rfl | rfl | rfl) <;> simp_all

theorem modelNum_head_digit {l g3 : List Char} (h : modelNum l = some g3) :
    ∃ c cs, g3 = c :: cs ∧ c.isDigit = true := by
  by_cases hlen : (l.takeWhile Char.isDigit).length < 3
  · simp [modelNum, hlen] at h
  · simp only [modelNum, hlen, if_false] at h
    have hne : l.takeWhile Char.isDigit ≠ [] := by
      intro hnil; rw [hnil] at hlen; simp at hlen
    obtain ⟨c, cs, hcons⟩ := List.exists_cons_of_ne_nil hne
    have hc : c.isDigit = true := by
      have hmem : c ∈ l.takeWhile Char.isDigit := by rw [hcons]; exact List.mem_cons_self _ _
      exact List.mem_takeWhile_imp hmem
    injection h with h
    rw [hcons] at h
    exact ⟨c, _, h.symm, hc⟩

theorem famModelAt_g3 {l g2 g3 : List Char} (h : famModelAt l = some (g2, g3)) :
    ∃ c cs, g3 = c :: cs ∧ c.isDigit = true := by
  unfold famModelAt at h
  cases hfa : famAlt l with
  | none => rw [hfa] at h; exact absurd h (by simp)
  | some r =>
    obtain ⟨a, b⟩ := r
    rw [hfa] at h
    simp only at h
    cases hmn : modelNum (b.dropWhile isWsDash) with
    | none => rw [hmn] at h; exact absurd h (by simp)
    | some g =>
      rw [hmn] at h
      injection h with h
      injection h with h1 h2
      exact h2 ▸ modelNum_head_digit hmn

theorem modelAt_g3 {l : List Char} {g1 g2 g3 : List Char}
    (h : modelAt l = some (g1, g2, g3)) :
    ∃ c cs, g3 = c :: cs ∧ c.isDigit = true := by
  unfold modelAt at h
  have noCoreCase : ∀ (hh : (match famModelAt l with
      | some (g2, g3) => some (([] : List Char), g2, g3)
      | none => none) = some (g1, g2, g3)), ∃ c cs, g3 = c :: cs ∧ c.isDigit = true := by
    intro hh
    cases hfm : famModelAt l with
    | none => rw [hfm] at hh; exact absurd hh (by simp)
    | some r =>
      obtain ⟨a2, a3⟩ := r
      rw [hfm] at hh
      simp only at hh
      injection hh with hh
      injection hh with hh1 hh23
      injection hh23 with hh2 hh3
      exact hh3 ▸ famModelAt_g3 hfm
  cases hcp : ciPfx "core".data l with
  | none => rw [hcp] at h; exact noCoreCase h
  | some rest =>
    rw [hcp] at h
    simp only at h
    by_cases hrun : (rest.takeWhile isWs).isEmpty
    · rw [if_pos hrun] at h; exact noCoreCase h
    · rw [if_neg hrun] at h
      cases hfm : famModelAt (rest.dropWhile isWs) with
      | none => rw [hfm] at h; exact noCoreCase h
      | some r =>
        obtain ⟨a2, a3⟩ := r
        rw [hfm] at h
        simp only at h
        injection h with h
        injection h with h1 h23
        injection h23 with h2 h3
        exact h3 ▸ famModelAt_g3 hfm

theorem modelSearch_g3 {l : List Char} {g1 g2 g3 : List Char}
    (h : modelSearch l = some (g1, g2, g3)) :
    ∃ c cs, g3 = c :: cs ∧ c.isDigit = true := by
  induction l with
  | nil => exact absurd h (by simp [modelSearch])
  | cons c rest ih =>
    rw [modelSearch] at h
    cases hma : modelAt (c :: rest) with
    | none => rw [hma] at h; exact ih h
    | some r => rw [hma] at h; injection h with h; exact modelAt_g3 (h ▸ hma)

theorem all_ws_of_trimWs_eq_nil {l : List Char} (h : trimWs l = []) :
    ∀ c ∈ l, isWs c = true := by
  unfold trimWs at h
  rw [List.reverse_eq_nil_iff] at h
  rw [List.dropWhile_eq_nil_iff] at h
  intro c hc
  rcases List.mem_append.1 ((List.takeWhile_append_dropWhile isWs l) ▸ hc) with h1 | h2
  · exact List.mem_takeWhile_imp h1
  · exact h _ (List.mem_reverse.2 h2)

theorem trimWs_ne_nil {l : List Char} {c : Char} (hc : c ∈ l) (hw : isWs c = false) :
    trimWs l ≠ [] := by
  intro h
  rw [all_ws_of_trimWs_eq_nil h c hc] at hw
  exact absurd hw (by simp)

theorem extractModelKey_ne_empty {s k : String} (h : extractModelKey s = some k) :
    ¬(k = "") := by
  unfold extractModelKey at h
  cases hms : modelSearch (canonChars s.data) with
  | none => rw [hms] at h; exact absurd h (by simp)
  | some r =>
    obtain ⟨g1, g2, g3⟩ := r
    rw [hms] at h
    simp only at h
    injection h with h
    obtain ⟨d, cs, hg3, hd⟩ := modelSearch_g3 hms
    intro hemp
    rw [hemp] at h
    have hdata : lowerStr (trimWs (trimWs (g1 ++ g2) ++ ' ' :: g3)) = [] :=
      congrArg String.data h
    rw [lowerStr, List.map_eq_nil_iff] at hdata
    refine @trimWs_ne_nil _ d ?_ (isWs_false_of_isDigit hd) hdata
    rw [hg3]
    exact List.mem_append.2 (Or.inr (List.mem_cons.2 (Or.inr (List.mem_cons_self _ _))))

/-- Claim C5: exact-key short-circuit.  Whenever two names extract the
same non-null model key, `calculate_similarity` returns exactly `1.0`
(the extracted key is provably never the empty string, so Python's
truthiness test on it always passes). -/
theorem C5_exact_key_short_circuit (a b k : String)
    (h1 : extractModelKey a = some k) (h2 : extractModelKey b = some k) :
    calculateSimilarity a b = 1 := by
  have hk : ¬(k = "") := extractModelKey_ne_empty h1
  unfold calculateSimilarity
  rw [h1, h2]
  simp [truthyStr, hk]

/-- Witness for C5 at a concrete pair of names sharing the key
`"core i9 14900k"`. -/
theorem C5_exact_key_short_circuit_witness :
    extractModelKey "Intel Core i9-14900K" = some "core i9 14900k" ∧
    extractModelKey "Core i9-14900K Processor" = some "core i9 14900k" ∧
    calculateSimilarity "Intel Core i9-14900K" "Core i9-14900K Processor" = 1 :=
  ⟨rfl, rfl, C5_exact_key_short_circuit _ _ "core i9 14900k" rfl rfl⟩

/-! ### Helper lemmas: the similarity ratio at an empty input -/

theorem matchTotalGo_nil_left : ∀ fuel b, matchTotalGo fuel [] b = 0
  | 0, _ => rfl
  | _ + 1, _ => rfl

theorem scanA_nil : ∀ (l : List Char) (i bi bj : Nat),
    scanA [] l i (bi, bj, 0) = (bi, bj, 0)
  | [], _, _, _ => rfl
  | a :: as_, i, bi, bj => by
    rw [scanA]
    have hsb : scanB (a :: as_) [] 0 (0, 0) = (0, 0) := rfl
    rw [hsb]
    simp only [Nat.lt_irrefl, if_false]
    exact scanA_nil as_ (i + 1) bi bj

theorem matchTotalGo_nil_right : ∀ fuel a, matchTotalGo fuel a [] = 0
  | 0, _ => rfl
  | fuel + 1, a => by
    rw [matchTotalGo]
    have h : longestMatchBF a [] = (0, 0, 0) := scanA_nil a 0 0 0
    rw [h]
    rfl

theorem data_ne_nil_of_ne_empty {c : String} (hc : c ≠ "") : c.data ≠ [] := by
  intro hnil
  apply hc
  cases c
  simp_all

theorem seqRatio_left_empty (c : String) (hc : c ≠ "") : seqRatio "" c = 0 := by
  have hlen : c.data.length ≠ 0 := fun h0 =>
    data_ne_nil_of_ne_empty hc (List.length_eq_zero.1 h0)
  simp only [seqRatio, matchTotal]
  rw [List.length_nil]
  rw [if_neg (by simpa using hlen)]
  rw [matchTotalGo_nil_left]
  norm_num

theorem seqRatio_right_empty (c : String) (hc : c ≠ "") : seqRatio c "" = 0 := by
  have hlen : c.data.length ≠ 0 := fun h0 =>
    data_ne_nil_of_ne_empty hc (List.length_eq_zero.1 h0)
  simp only [seqRatio, matchTotal]
  rw [List.length_nil]
  rw [if_neg (by simpa using hlen)]
  rw [matchTotalGo_nil_right]
  norm_num

/-- Claim C6, amended: with at least one empty input the scorer never
throws and returns `0.0` except when both canonical forms are the
empty string (in particular when both names are empty), in which case
the canonical-equality branch fires first and it returns `1.0`. -/
theorem C6_empty_input_similarity (a b : String) (h : a = "" ∨ b = "") :
    calculateSimilarity a b = if getCanonicalName a = getCanonicalName b then 1 else 0 := by
  rcases h with rfl | rfl
  · unfold calculateSimilarity
    rw [show extractModelKey "" = none from rfl]
    rw [if_neg (by simp [truthyStr])]
    by_cases hc : getCanonicalName "" = getCanonicalName b
    · rw [if_pos hc, if_pos hc]
    · rw [if_neg hc, if_neg hc]
      have h1 : getCanonicalName "" = "" := rfl
      rw [h1] at hc ⊢
      exact seqRatio_left_empty _ (Ne.symm hc)
  · unfold calculateSimilarity
    rw [show extractModelKey "" = none from rfl]
    rw [if_neg (by simp [truthyStr])]
    by_cases hc : getCanonicalName a = getCanonicalName ""
    · rw [if_pos hc, if_pos hc]
    · rw [if_neg hc, if_neg hc]
      have h1 : getCanonicalName "" = "" := rfl
      rw [h1] at hc ⊢
      exact seqRatio_right_empty _ hc

/-- Witness for the amended C6 at a concrete pair: an empty first name
against a real CPU name scores `0.0`. -/
theorem C6_empty_input_similarity_witness :
    (("" : String) = "" ∨ ("Core i9-14900K" : String) = "") ∧
    calculateSimilarity "" "Core i9-14900K" =
      (if getCanonicalName "" = getCanonicalName "Core i9-14900K" then 1 else 0) ∧
    (if getCanonicalName "" = getCanonicalName "Core i9-14900K" then (1 : ℚ) else 0) = 0 :=
  ⟨Or.inl rfl, C6_empty_input_similarity "" "Core i9-14900K" (Or.inl rfl), by decide⟩

/-! ### Helper lemmas: permutations for the grouping phase -/

theorem perm_flatten {α : Type} {l₁ l₂ : List (List α)} (h : l₁.Perm l₂) :
    l₁.flatten.Perm l₂.flatten := by
  induction h with
  | nil => exact .refl _
  | cons x h ih => exact ih.append_left x
  | swap x y l =>
    simp only [List.flatten_cons, ← List.append_assoc]
    exact (@List.perm_append_comm _ y x).append_right _
  | trans h1 h2 ih1 ih2 => exact ih1.trans ih2

theorem insertPr_perm {α : Type} (f : α → Nat) (x : α) (l : List α) :
    (insertPr f x l).Perm (x :: l) := by
  induction l with
  | nil => exact .refl _
  | cons y rest ih =>
    rw [insertPr]
    by_cases h : f x ≤ f y
    · rw [if_pos h]
    · rw [if_neg h]
      exact (ih.cons y).trans (List.Perm.swap x y rest)

theorem sortPr_perm {α : Type} (f : α → Nat) (l : List α) : (sortPr f l).Perm l := by
  induction l with
  | nil => exact .refl _
  | cons x rest ih => exact (insertPr_perm f x (sortPr f rest)).trans (ih.cons x)

theorem groups_add_join (gs : Groups) (k : String) (sp : CPUSpecification) :
    ((Groups.add gs k sp).map Prod.snd).flatten.Perm
      (sp :: (gs.map Prod.snd).flatten) := by
  induction gs with
  | nil => exact .refl _
  | cons e rest ih =>
    obtain ⟨k', l⟩ := e
    rw [Groups.add]
    by_cases h : k' = k
    · rw [if_pos h]
      simp only [List.map_cons, List.flatten_cons]
      rw [List.append_assoc]
      exact List.perm_middle
    · rw [if_neg h]
      simp only [List.map_cons, List.flatten_cons]
      exact (ih.append_left l).trans List.perm_middle

theorem specs_fold_join (specs : List CPUSpecification) (gs : Groups) :
    ((specs.foldl (fun gs sp => Groups.add gs (groupKey sp) sp) gs).map Prod.snd).flatten.Perm
      (specs ++ (gs.map Prod.snd).flatten) := by
  induction specs generalizing gs with
  | nil => exact .refl _
  | cons sp rest ih =>
    simp only [List.foldl_cons, List.cons_append]
    exact (ih (Groups.add gs (groupKey sp) sp)).trans
      ((groups_add_join gs (groupKey sp) sp).append_left rest |>.trans List.perm_middle)

theorem entries_fold_join
    (entries : List (String × DataSourcePriority × List CPUSpecification)) (gs : Groups) :
    ((entries.foldl
        (fun gs entry => entry.2.2.foldl (fun gs sp => Groups.add gs (groupKey sp) sp) gs)
        gs).map Prod.snd).flatten.Perm
      ((entries.map (fun e => e.2.2)).flatten ++ (gs.map Prod.snd).flatten) := by
  induction entries generalizing gs with
  | nil => exact .refl _
  | cons e rest ih =>
    simp only [List.foldl_cons, List.map_cons, List.flatten_cons, List.append_assoc]
    refine (ih _).trans ?_
    refine ((specs_fold_join e.2.2 gs).append_left _).trans ?_
    rw [← List.append_assoc, ← List.append_assoc]
    exact (@List.perm_append_comm _ ((rest.map (fun e => e.2.2)).flatten)
      e.2.2).append_right _

/-- Claim C2: partition invariant.  For every input, the grouping phase of
`merge` places every record in exactly one equivalence group:
concatenating the members of all groups is a permutation of the input
records (no record lost or duplicated). -/
theorem C2_grouping_partition
    (specLists : List (String × DataSourcePriority × List CPUSpecification)) :
    ((mergeGroups specLists).map Prod.snd).flatten.Perm
      ((specLists.map (fun e => e.2.2)).flatten) := by
  unfold mergeGroups
  refine (entries_fold_join _ []).trans ?_
  simp only [List.map_nil, List.flatten_nil, List.append_nil]
  exact perm_flatten ((sortPr_perm _ specLists).map (fun e => e.2.2))

/-! ### Helper lemmas: protected fields and stable priority sorting -/

theorem alGet?_alSet_ne {α : Type} (d : List (String × α)) (k k' : String) (v : α)
    (h : k' ≠ k) : alGet? (alSet d k v) k' = alGet? d k' := by
  induction d with
  | nil => simp [alSet, alGet?, Ne.symm h]
  | cons kv rest ih =>
    obtain ⟨k0, v0⟩ := kv
    rw [alSet]
    by_cases h0 : k0 = k
    · rw [if_pos h0]
      rw [alGet?, alGet?]
      rw [h0]
      rw [if_neg (Ne.symm (h0 ▸ h)), if_neg (Ne.symm (h0 ▸ h))]
    · rw [if_neg h0]
      rw [alGet?, alGet?]
      by_cases h1 : k0 = k'
      · rw [if_pos h1, if_pos h1]
      · rw [if_neg h1, if_neg h1]
        exact ih

theorem getV_alSet_ne (d : FieldDict) (k k' : String) (v : Option Value)
    (h : k' ≠ k) : FieldDict.getV (alSet d k v) k' = FieldDict.getV d k' := by
  unfold FieldDict.getV
  rw [alGet?_alSet_ne d k k' v h]

theorem mergeFieldStep_protected (cfg : MergeConfig) (acc : FieldDict × Stats)
    (kv : String × Option Value) (k : String) (hk : k ∈ cfg.protected_fields) :
    ((mergeFieldStep cfg acc kv).1).getV k = acc.1.getV k := by
  unfold mergeFieldStep
  by_cases hp : kv.1 ∈ cfg.protected_fields
  · simp [hp]
  · have hne : k ≠ kv.1 := fun h => hp (h ▸ hk)
    rw [if_neg hp]
    cases kv.2 with
    | none => rfl
    | some v =>
      simp only
      cases acc.1.getV kv.1 with
      | none => exact getV_alSet_ne _ _ _ _ hne
      | some cur =>
        simp only
        by_cases hc : cur ≠ v
        · rw [if_pos hc]
          by_cases hr : resolveConflict cfg kv.1 cur v ≠ cur
          · rw [if_pos hr]
            exact getV_alSet_ne _ _ _ _ hne
          · rw [if_neg hr]
        · rw [if_neg hc]

theorem mergeStep_protected (cfg : MergeConfig) (sd : FieldDict)
    (acc : FieldDict × Stats) (k : String) (hk : k ∈ cfg.protected_fields) :
    ((mergeStep cfg acc sd).1).getV k = acc.1.getV k := by
  induction sd generalizing acc with
  | nil => rfl
  | cons kv rest ih =>
    rw [mergeStep, List.foldl_cons]
    rw [show rest.foldl (mergeFieldStep cfg) (mergeFieldStep cfg acc kv) =
      mergeStep cfg (mergeFieldStep cfg acc kv) rest from rfl]
    rw [ih]
    exact mergeFieldStep_protected cfg acc kv k hk

theorem mergeSpecsFold_protected (cfg : MergeConfig) (specs : List CPUSpecification)
    (acc : FieldDict × Stats) (k : String) (hk : k ∈ cfg.protected_fields) :
    ((specs.foldl (fun acc sp => mergeStep cfg acc (toDict sp)) acc).1).getV k =
      acc.1.getV k := by
  induction specs generalizing acc with
  | nil => rfl
  | cons sp rest ih =>
    rw [List.foldl_cons, ih]
    exact mergeStep_protected cfg (toDict sp) acc k hk

theorem insertPr_pairwise {α : Type} (f : α → Nat) (x : α) {l : List α}
    (h : l.Pairwise (fun a b => f a ≤ f b)) :
    (insertPr f x l).Pairwise (fun a b => f a ≤ f b) := by
  induction l with
  | nil => simp [insertPr]
  | cons y rest ih =>
    rw [insertPr]
    rcases List.pairwise_cons.1 h with ⟨hy, hrest⟩
    by_cases hxy : f x ≤ f y
    · rw [if_pos hxy]
      refine List.pairwise_cons.2 ⟨?_, h⟩
      intro z hz
      rcases List.mem_cons.1 hz with rfl | hz2
      · exact hxy
      · exact le_trans hxy (hy z hz2)
    · rw [if_neg hxy]
      refine List.pairwise_cons.2 ⟨?_, ih hrest⟩
      intro z hz
      rcases List.mem_cons.1 ((insertPr_perm f x rest).mem_iff.1 hz) with rfl | hz2
      · exact le_of_not_le hxy
      · exact hy z hz2

theorem sortPr_pairwise {α : Type} (f : α → Nat) (l : List α) :
    (sortPr f l).Pairwise (fun a b => f a ≤ f b) := by
  induction l with
  | nil => simp [sortPr]
  | cons x rest ih => exact insertPr_pairwise f x ih

theorem sortPr_head_le {α : Type} (f : α → Nat) {l : List α} {x : α} {rest : List α}
    (h : sortPr f l = x :: rest) : ∀ y ∈ l, f x ≤ f y := by
  intro y hy
  have hmem : y ∈ x :: rest := h ▸ (sortPr_perm f l).symm.mem_iff.1 hy
  rcases List.mem_cons.1 hmem with rfl | hy2
  · exact le_refl _
  · have hp := sortPr_pairwise f l
    rw [h] at hp
    exact (List.pairwise_cons.1 hp).1 y hy2

theorem sortPr_head_mem {α : Type} (f : α → Nat) {l : List α} {x : α} {rest : List α}
    (h : sortPr f l = x :: rest) : x ∈ l :=
  (sortPr_perm f l).mem_iff.1 (h ▸ List.mem_cons_self x rest)

/-- Claim C3: protected-field invariant.  For every non-empty group (its
priority-sorted form being `base :: rest`), the merged record's `name`,
`manufacturer` and `source_id` are exactly the base record's values,
and the base is a member of the group attaining the minimal source
priority. -/
theorem C3_protected_fields (st : Stats) (group : List CPUSpecification)
    (base : CPUSpecification) (rest : List CPUSpecification)
    (h : sortPr getSourcePriority group = base :: rest) :
    base ∈ group ∧ (∀ sp ∈ group, getSourcePriority base ≤ getSourcePriority sp) ∧
    ∃ m st2, mergeGroup {} st group = some (m, st2) ∧
      m.name = base.name ∧ m.manufacturer = base.manufacturer ∧
      m.source_id = base.source_id := by
  refine ⟨sortPr_head_mem _ h, sortPr_head_le _ h, ?_⟩
  unfold mergeGroup
  rw [h]
  simp only
  refine ⟨_, _, rfl, ?_, ?_, ?_⟩
  · show (asStr (FieldDict.getV
      ((rest.foldl (fun acc sp => mergeStep {} acc (toDict sp)) (toDict base, st)).1)
      "name")).getD "" = base.name
    rw [mergeSpecsFold_protected _ _ _ _ (by decide)]
    rfl
  · show (match FieldDict.getV
        ((rest.foldl (fun acc sp => mergeStep {} acc (toDict sp)) (toDict base, st)).1)
        "manufacturer" with
      | some (.s v) => if v = "" then base.manufacturer
          else (Manufacturer.fromValue v).getD base.manufacturer
      | _ => base.manufacturer) = base.manufacturer
    rw [mergeSpecsFold_protected _ _ _ _ (by decide)]
    show (if base.manufacturer.value = "" then base.manufacturer
      else (Manufacturer.fromValue base.manufacturer.value).getD base.manufacturer) =
        base.manufacturer
    cases base.manufacturer <;> rfl
  · show FieldDict.getV
      ((rest.foldl (fun acc sp => mergeStep {} acc (toDict sp)) (toDict base, st)).1)
      "source_id" = base.source_id
    rw [mergeSpecsFold_protected _ _ _ _ (by decide)]
    rfl

/-- Witness for C3 on a concrete two-element group: the official record
is the base and its protected fields survive the merge. -/
theorem C3_protected_fields_witness :
    sortPr getSourcePriority [sampleSecondary, sampleOfficial] =
      sampleOfficial :: [sampleSecondary] ∧
    (sampleOfficial ∈ [sampleSecondary, sampleOfficial] ∧
     (∀ sp ∈ [sampleSecondary, sampleOfficial],
        getSourcePriority sampleOfficial ≤ getSourcePriority sp) ∧
     ∃ m st2, mergeGroup {} {} [sampleSecondary, sampleOfficial] = some (m, st2) ∧
       m.name = sampleOfficial.name ∧ m.manufacturer = sampleOfficial.manufacturer ∧
       m.source_id = sampleOfficial.source_id) :=
  ⟨by decide, C3_protected_fields {} [sampleSecondary, sampleOfficial]
    sampleOfficial [sampleSecondary] (by decide)⟩

/-! ### Helper lemmas: gap filling never erases a non-null field -/

theorem alGet?_alSet_self {α : Type} (d : List (String × α)) (k : String) (v : α) :
    alGet? (alSet d k v) k = some v := by
  induction d with
  | nil => simp [alSet, alGet?]
  | cons kv rest ih =>
    obtain ⟨k0, v0⟩ := kv
    rw [alSet]
    by_cases h0 : k0 = k
    · rw [if_pos h0, alGet?, if_pos h0]
    · rw [if_neg h0, alGet?, if_neg h0]
      exact ih

theorem getV_alSet_self (d : FieldDict) (k : String) (v : Value) :
    FieldDict.getV (alSet d k (some v)) k = some v := by
  unfold FieldDict.getV
  rw [alGet?_alSet_self]
  rfl

theorem mergeFieldStep_isSome (cfg : MergeConfig) (acc : FieldDict × Stats)
    (kv : String × Option Value) (k : String)
    (h : (FieldDict.getV acc.1 k).isSome = true) :
    (FieldDict.getV ((mergeFieldStep cfg acc kv).1) k).isSome = true := by
  unfold mergeFieldStep
  by_cases hp : kv.1 ∈ cfg.protected_fields
  · simpa [hp] using h
  · rw [if_neg hp]
    cases kv.2 with
    | none => exact h
    | some v =>
      simp only
      cases hga : FieldDict.getV acc.1 kv.1 with
      | none =>
        by_cases hk : k = kv.1
        · rw [hk] at h; rw [hga] at h; exact absurd h (by simp)
        · show (FieldDict.getV (alSet acc.1 kv.1 (some v)) k).isSome = true
          rw [getV_alSet_ne _ _ _ _ hk]
          exact h
      | some cur =>
        simp only
        by_cases hc : cur ≠ v
        · rw [if_pos hc]
          by_cases hr : resolveConflict cfg kv.1 cur v ≠ cur
          · rw [if_pos hr]
            by_cases hk : k = kv.1
            · show (FieldDict.getV (alSet acc.1 kv.1 _) k).isSome = true
              rw [hk, getV_alSet_self]
              rfl
            · show (FieldDict.getV (alSet acc.1 kv.1 _) k).isSome = true
              rw [getV_alSet_ne _ _ _ _ hk]
              exact h
          · rw [if_neg hr]; exact h
        · rw [if_neg hc]; exact h

theorem mergeStep_isSome (cfg : MergeConfig) (sd : FieldDict)
    (acc : FieldDict × Stats) (k : String)
    (h : (FieldDict.getV acc.1 k).isSome = true) :
    (FieldDict.getV ((mergeStep cfg acc sd).1) k).isSome = true := by
  induction sd generalizing acc with
  | nil => exact h
  | cons kv rest ih =>
    rw [mergeStep, List.foldl_cons]
    exact ih (mergeFieldStep cfg acc kv) (mergeFieldStep_isSome cfg acc kv k h)

theorem mergeSpecsFold_isSome (cfg : MergeConfig) (specs : List CPUSpecification)
    (acc : FieldDict × Stats) (k : String)
    (h : (FieldDict.getV acc.1 k).isSome = true) :
    (FieldDict.getV ((specs.foldl (fun acc sp => mergeStep cfg acc (toDict sp)) acc).1) k).isSome
      = true := by
  induction specs generalizing acc with
  | nil => exact h
  | cons sp rest ih =>
    rw [List.foldl_cons]
    exact ih _ (mergeStep_isSome cfg (toDict sp) acc k h)

theorem count_le_of_forall2 {l1 l2 : FieldDict}
    (h : List.Forall₂ (fun p q => p.2.isSome = true → q.2.isSome = true) l1 l2) :
    (l1.filter (fun kv => kv.2.isSome)).length ≤ (l2.filter (fun kv => kv.2.isSome)).length := by
  induction h with
  | nil => exact le_refl _
  | cons hpq hrest ih =>
    rename_i a b l1' l2'
    by_cases ha : a.2.isSome = true
    · rw [List.filter_cons, List.filter_cons, if_pos (by simpa using ha),
        if_pos (by simpa using hpq ha)]
      simpa using ih
    · rw [List.filter_cons, if_neg (by simpa using ha)]
      refine ih.trans ?_
      rw [List.filter_cons]
      by_cases hb : b.2.isSome = true
      · rw [if_pos (by simpa using hb)]
        exact Nat.le_succ _
      · rw [if_neg (by simpa using hb)]

/-- Claim C9: gap-filling monotonicity.  For every non-empty group (its
priority-sorted form being `base :: rest`), the merged record has at
least as many non-null fields as the base record: gap filling and
conflict resolution only ever replace values or fill `None` fields,
never null out a populated one. -/
theorem C9_gap_filling_monotonicity (st : Stats) (group : List CPUSpecification)
    (base : CPUSpecification) (rest : List CPUSpecification)
    (h : sortPr getSourcePriority group = base :: rest) :
    ∃ m st2, mergeGroup {} st group = some (m, st2) ∧
      countNonNull base ≤ countNonNull m := by
  unfold mergeGroup
  rw [h]
  simp only
  refine ⟨_, _, rfl, ?_⟩
  have inv : ∀ k, (FieldDict.getV (toDict base) k).isSome = true →
      (FieldDict.getV ((rest.foldl (fun acc sp => mergeStep {} acc (toDict sp))
        (toDict base, st)).1) k).isSome = true := by
    intro k hk
    exact mergeSpecsFold_isSome {} rest (toDict base, st) k hk
  unfold countNonNull
  apply count_le_of_forall2
  refine List.Forall₂.cons (fun _ => rfl) ?_
  refine List.Forall₂.cons (fun _ => rfl) ?_
  refine List.Forall₂.cons (fun _ => rfl) ?_
  refine List.Forall₂.cons (fun hh => inv "source_url" hh) ?_
  refine List.Forall₂.cons (fun hh => inv "source_id" hh) ?_
  refine List.Forall₂.cons (fun hh => inv "cores" hh) ?_
  refine List.Forall₂.cons (fun hh => inv "threads" hh) ?_
  refine List.Forall₂.cons (fun hh => inv "p_cores" hh) ?_
  refine List.Forall₂.cons (fun hh => inv "e_cores" hh) ?_
  refine List.Forall₂.cons (fun hh => inv "base_clock" hh) ?_
  refine List.Forall₂.cons (fun hh => inv "boost_clock" hh) ?_
  refine List.Forall₂.cons (fun hh => inv "p_core_base_clock" hh) ?_
  refine List.Forall₂.cons (fun hh => inv "p_core_boost_clock" hh) ?_
  refine List.Forall₂.cons (fun hh => inv "e_core_base_clock" hh) ?_
  refine List.Forall₂.cons (fun hh => inv "e_core_boost_clock" hh) ?_
  refine List.Forall₂.cons (fun hh => inv "l1_cache" hh) ?_
  refine List.Forall₂.cons (fun hh => inv "l2_cache" hh) ?_
  refine List.Forall₂.cons (fun hh => inv "l3_cache" hh) ?_
  refine List.Forall₂.cons (fun hh => inv "tdp" hh) ?_
  refine List.Forall₂.cons (fun hh => inv "base_power" hh) ?_
  refine List.Forall₂.cons (fun hh => inv "max_turbo_power" hh) ?_
  refine List.Forall₂.cons (fun hh => inv "codename" hh) ?_
  refine List.Forall₂.cons (fun hh => inv "microarchitecture" hh) ?_
  refine List.Forall₂.cons (fun hh => inv "generation" hh) ?_
  refine List.Forall₂.cons (fun hh => inv "socket_name" hh) ?_
  refine List.Forall₂.cons (fun hh => inv "process_node" hh) ?_
  refine List.Forall₂.cons (fun hh => inv "transistors_million" hh) ?_
  refine List.Forall₂.cons (fun hh => inv "die_size_mm2" hh) ?_
  refine List.Forall₂.cons (fun hh => inv "memory_type" hh) ?_
  refine List.Forall₂.cons (fun hh => inv "memory_channels" hh) ?_
  refine List.Forall₂.cons (fun hh => inv "max_memory_gb" hh) ?_
  refine List.Forall₂.cons (fun hh => inv "memory_speed" hh) ?_
  refine List.Forall₂.cons (fun hh => inv "has_integrated_gpu" hh) ?_
  refine List.Forall₂.cons (fun hh => inv "integrated_gpu_name" hh) ?_
  refine List.Forall₂.cons (fun hh => inv "pcie_version" hh) ?_
  refine List.Forall₂.cons (fun hh => inv "pcie_lanes" hh) ?_
  refine List.Forall₂.cons (fun hh => inv "launch_date" hh) ?_
  refine List.Forall₂.cons (fun hh => inv "launch_msrp" hh) ?_
  refine List.Forall₂.cons (fun hh => inv "is_released" hh) ?_
  refine List.Forall₂.cons (fun hh => inv "is_discontinued" hh) ?_
  refine List.Forall₂.cons (fun hh => inv "geekbench_single" hh) ?_
  refine List.Forall₂.cons (fun hh => inv "geekbench_multi" hh) ?_
  refine List.Forall₂.cons (fun hh => inv "passmark_single" hh) ?_
  refine List.Forall₂.cons (fun hh => inv "passmark_multi" hh) ?_
  refine List.Forall₂.cons (fun hh => inv "cinebench_single" hh) ?_
  refine List.Forall₂.cons (fun hh => inv "cinebench_multi" hh) ?_
  refine List.Forall₂.cons (fun hh => inv "image_url" hh) ?_
  exact List.Forall₂.cons (fun _ => rfl) List.Forall₂.nil

/-- Witness for C9 on a concrete two-element group. -/
theorem C9_gap_filling_monotonicity_witness :
    sortPr getSourcePriority [sampleSecondary, sampleOfficial] =
      sampleOfficial :: [sampleSecondary] ∧
    ∃ m st2, mergeGroup {} {} [sampleSecondary, sampleOfficial] = some (m, st2) ∧
      countNonNull sampleOfficial ≤ countNonNull m :=
  ⟨by decide, C9_gap_filling_monotonicity {} [sampleSecondary, sampleOfficial]
    sampleOfficial [sampleSecondary] (by decide)⟩

/-! ### C10: fill_gaps frame property -/

theorem toDict_keys (sp : CPUSpecification) : (toDict sp).map Prod.fst = fieldKeys := rfl

theorem mkFilled_name (p : CPUSpecification) (d : FieldDict) :
    (mkFilled p d).name = p.name := rfl

theorem mkFilled_manufacturer (p : CPUSpecification) (d : FieldDict) :
    (mkFilled p d).manufacturer = p.manufacturer := rfl

theorem mkFilled_source (p : CPUSpecification) (d : FieldDict) :
    (mkFilled p d).source = p.source := rfl

theorem toDict_mkFilled (p : CPUSpecification) (d : FieldDict) :
    toDict (mkFilled p d) =
    [("name", some (.s p.name)),
     ("manufacturer", some (.s p.manufacturer.value)),
     ("source", some (.s p.source)),
     ("source_url", FieldDict.getV d "source_url"),
     ("source_id", FieldDict.getV d "source_id"),
     ("cores", FieldDict.getV d "cores"),
     ("threads", FieldDict.getV d "threads"),
     ("p_cores", FieldDict.getV d "p_cores"),
     ("e_cores", FieldDict.getV d "e_cores"),
     ("base_clock", FieldDict.getV d "base_clock"),
     ("boost_clock", FieldDict.getV d "boost_clock"),
     ("p_core_base_clock", FieldDict.getV d "p_core_base_clock"),
     ("p_core_boost_clock", FieldDict.getV d "p_core_boost_clock"),
     ("e_core_base_clock", FieldDict.getV d "e_core_base_clock"),
     ("e_core_boost_clock", FieldDict.getV d "e_core_boost_clock"),
     ("l1_cache", FieldDict.getV d "l1_cache"),
     ("l2_cache", FieldDict.getV d "l2_cache"),
     ("l3_cache", FieldDict.getV d "l3_cache"),
     ("tdp", FieldDict.getV d "tdp"),
     ("base_power", FieldDict.getV d "base_power"),
     ("max_turbo_power", FieldDict.getV d "max_turbo_power"),
     ("codename", FieldDict.getV d "codename"),
     ("microarchitecture", FieldDict.getV d "microarchitecture"),
     ("generation", FieldDict.getV d "generation"),
     ("socket_name", FieldDict.getV d "socket_name"),
     ("process_node", FieldDict.getV d "process_node"),
     ("transistors_million", FieldDict.getV d "transistors_million"),
     ("die_size_mm2", FieldDict.getV d "die_size_mm2"),
     ("memory_type", FieldDict.getV d "memory_type"),
     ("memory_channels", FieldDict.getV d "memory_channels"),
     ("max_memory_gb", FieldDict.getV d "max_memory_gb"),
     ("memory_speed", FieldDict.getV d "memory_speed"),
     ("has_integrated_gpu", FieldDict.getV d "has_integrated_gpu"),
     ("integrated_gpu_name", FieldDict.getV d "integrated_gpu_name"),
     ("pcie_version", FieldDict.getV d "pcie_version"),
     ("pcie_lanes", FieldDict.getV d "pcie_lanes"),
     ("launch_date", FieldDict.getV d "launch_date"),
     ("launch_msrp", FieldDict.getV d "launch_msrp"),
     ("is_released", FieldDict.getV d "is_released"),
     ("is_discontinued", FieldDict.getV d "is_discontinued"),
     ("geekbench_single", FieldDict.getV d "geekbench_single"),
     ("geekbench_multi", FieldDict.getV d "geekbench_multi"),
     ("passmark_single", FieldDict.getV d "passmark_single"),
     ("passmark_multi", FieldDict.getV d "passmark_multi"),
     ("cinebench_single", FieldDict.getV d "cinebench_single"),
     ("cinebench_multi", FieldDict.getV d "cinebench_multi"),
     ("image_url", FieldDict.getV d "image_url"),
     ("scraped_at", some (.s ((asStr (FieldDict.getV d "scraped_at")).getD "")))] := rfl

theorem gmkName (p : CPUSpecification) (d : FieldDict) :
    FieldDict.getV (toDict (mkFilled p d)) "name" = some (Value.s p.name) := rfl

theorem gmkManufacturer (p : CPUSpecification) (d : FieldDict) :
    FieldDict.getV (toDict (mkFilled p d)) "manufacturer" =
      some (Value.s p.manufacturer.value) := rfl

theorem gmkSource (p : CPUSpecification) (d : FieldDict) :
    FieldDict.getV (toDict (mkFilled p d)) "source" = some (Value.s p.source) := rfl

theorem gmkScrapedAt (p : CPUSpecification) (d : FieldDict) :
    FieldDict.getV (toDict (mkFilled p d)) "scraped_at" =
      some (Value.s ((asStr (FieldDict.getV d "scraped_at")).getD "")) := rfl

theorem gmk_source_url (p : CPUSpecification) (d : FieldDict) :
    FieldDict.getV (toDict (mkFilled p d)) "source_url" = FieldDict.getV d "source_url" := rfl

theorem gmk_source_id (p : CPUSpecification) (d : FieldDict) :
    FieldDict.getV (toDict (mkFilled p d)) "source_id" = FieldDict.getV d "source_id" := rfl

theorem gmk_cores (p : CPUSpecification) (d : FieldDict) :
    FieldDict.getV (toDict (mkFilled p d)) "cores" = FieldDict.getV d "cores" := rfl

theorem gmk_threads (p : CPUSpecification) (d : FieldDict) :
    FieldDict.getV (toDict (mkFilled p d)) "threads" = FieldDict.getV d "threads" := rfl

theorem gmk_p_cores (p : CPUSpecification) (d : FieldDict) :
    FieldDict.getV (toDict (mkFilled p d)) "p_cores" = FieldDict.getV d "p_cores" := rfl

theorem gmk_e_cores (p : CPUSpecification) (d : FieldDict) :
    FieldDict.getV (toDict (mkFilled p d)) "e_cores" = FieldDict.getV d "e_cores" := rfl

theorem gmk_base_clock (p : CPUSpecification) (d : FieldDict) :
    FieldDict.getV (toDict (mkFilled p d)) "base_clock" = FieldDict.getV d "base_clock" := rfl

theorem gmk_boost_clock (p : CPUSpecification) (d : FieldDict) :
    FieldDict.getV (toDict (mkFilled p d)) "boost_clock" = FieldDict.getV d "boost_clock" := rfl

theorem gmk_p_core_base_clock (p : CPUSpecification) (d : FieldDict) :
    FieldDict.getV (toDict (mkFilled p d)) "p_core_base_clock" = FieldDict.getV d "p_core_base_clock" := rfl

theorem gmk_p_core_boost_clock (p : CPUSpecification) (d : FieldDict) :
    FieldDict.getV (toDict (mkFilled p d)) "p_core_boost_clock" = FieldDict.getV d "p_core_boost_clock" := rfl

theorem gmk_e_core_base_clock (p : CPUSpecification) (d : FieldDict) :
    FieldDict.getV (toDict (mkFilled p d)) "e_core_base_clock" = FieldDict.getV d "e_core_base_clock" := rfl

theorem gmk_e_core_boost_clock (p : CPUSpecification) (d : FieldDict) :
    FieldDict.getV (toDict (mkFilled p d)) "e_core_boost_clock" = FieldDict.getV d "e_core_boost_clock" := rfl

theorem gmk_l1_cache (p : CPUSpecification) (d : FieldDict) :
    FieldDict.getV (toDict (mkFilled p d)) "l1_cache" = FieldDict.getV d "l1_cache" := rfl

theorem gmk_l2_cache (p : CPUSpecification) (d : FieldDict) :
    FieldDict.getV (toDict (mkFilled p d)) "l2_cache" = FieldDict.getV d "l2_cache" := rfl

theorem gmk_l3_cache (p : CPUSpecification) (d : FieldDict) :
    FieldDict.getV (toDict (mkFilled p d)) "l3_cache" = FieldDict.getV d "l3_cache" := rfl

theorem gmk_tdp (p : CPUSpecification) (d : FieldDict) :
    FieldDict.getV (toDict (mkFilled p d)) "tdp" = FieldDict.getV d "tdp" := rfl

theorem gmk_base_power (p : CPUSpecification) (d : FieldDict) :
    FieldDict.getV (toDict (mkFilled p d)) "base_power" = FieldDict.getV d "base_power" := rfl

theorem gmk_max_turbo_power (p : CPUSpecification) (d : FieldDict) :
    FieldDict.getV (toDict (mkFilled p d)) "max_turbo_power" = FieldDict.getV d "max_turbo_power" := rfl

theorem gmk_codename (p : CPUSpecification) (d : FieldDict) :
    FieldDict.getV (toDict (mkFilled p d)) "codename" = FieldDict.getV d "codename" := rfl

theorem gmk_microarchitecture (p : CPUSpecification) (d : FieldDict) :
    FieldDict.getV (toDict (mkFilled p d)) "microarchitecture" = FieldDict.getV d "microarchitecture" := rfl

theorem gmk_generation (p : CPUSpecification) (d : FieldDict) :
    FieldDict.getV (toDict (mkFilled p d)) "generation" = FieldDict.getV d "generation" := rfl

theorem gmk_socket_name (p : CPUSpecification) (d : FieldDict) :
    FieldDict.getV (toDict (mkFilled p d)) "socket_name" = FieldDict.getV d "socket_name" := rfl

theorem gmk_process_node (p : CPUSpecification) (d : FieldDict) :
    FieldDict.getV (toDict (mkFilled p d)) "process_node" = FieldDict.getV d "process_node" := rfl

theorem gmk_transistors_million (p : CPUSpecification) (d : FieldDict) :
    FieldDict.getV (toDict (mkFilled p d)) "transistors_million" = FieldDict.getV d "transistors_million" := rfl

theorem gmk_die_size_mm2 (p : CPUSpecification) (d : FieldDict) :
    FieldDict.getV (toDict (mkFilled p d)) "die_size_mm2" = FieldDict.getV d "die_size_mm2" := rfl

theorem gmk_memory_type (p : CPUSpecification) (d : FieldDict) :
    FieldDict.getV (toDict (mkFilled p d)) "memory_type" = FieldDict.getV d "memory_type" := rfl

theorem gmk_memory_channels (p : CPUSpecification) (d : FieldDict) :
    FieldDict.getV (toDict (mkFilled p d)) "memory_channels" = FieldDict.getV d "memory_channels" := rfl

theorem gmk_max_memory_gb (p : CPUSpecification) (d : FieldDict) :
    FieldDict.getV (toDict (mkFilled p d)) "max_memory_gb" = FieldDict.getV d "max_memory_gb" := rfl

theorem gmk_memory_speed (p : CPUSpecification) (d : FieldDict) :
    FieldDict.getV (toDict (mkFilled p d)) "memory_speed" = FieldDict.getV d "memory_speed" := rfl

theorem gmk_has_integrated_gpu (p : CPUSpecification) (d : FieldDict) :
    FieldDict.getV (toDict (mkFilled p d)) "has_integrated_gpu" = FieldDict.getV d "has_integrated_gpu" := rfl

theorem gmk_integrated_gpu_name (p : CPUSpecification) (d : FieldDict) :
    FieldDict.getV (toDict (mkFilled p d)) "integrated_gpu_name" = FieldDict.getV d "integrated_gpu_name" := rfl

theorem gmk_pcie_version (p : CPUSpecification) (d : FieldDict) :
    FieldDict.getV (toDict (mkFilled p d)) "pcie_version" = FieldDict.getV d "pcie_version" := rfl

theorem gmk_pcie_lanes (p : CPUSpecification) (d : FieldDict) :
    FieldDict.getV (toDict (mkFilled p d)) "pcie_lanes" = FieldDict.getV d "pcie_lanes" := rfl

theorem gmk_launch_date (p : CPUSpecification) (d : FieldDict) :
    FieldDict.getV (toDict (mkFilled p d)) "launch_date" = FieldDict.getV d "launch_date" := rfl

theorem gmk_launch_msrp (p : CPUSpecification) (d : FieldDict) :
    FieldDict.getV (toDict (mkFilled p d)) "launch_msrp" = FieldDict.getV d "launch_msrp" := rfl

theorem gmk_is_released (p : CPUSpecification) (d : FieldDict) :
    FieldDict.getV (toDict (mkFilled p d)) "is_released" = FieldDict.getV d "is_released" := rfl

theorem gmk_is_discontinued (p : CPUSpecification) (d : FieldDict) :
    FieldDict.getV (toDict (mkFilled p d)) "is_discontinued" = FieldDict.getV d "is_discontinued" := rfl

theorem gmk_geekbench_single (p : CPUSpecification) (d : FieldDict) :
    FieldDict.getV (toDict (mkFilled p d)) "geekbench_single" = FieldDict.getV d "geekbench_single" := rfl

theorem gmk_geekbench_multi (p : CPUSpecification) (d : FieldDict) :
    FieldDict.getV (toDict (mkFilled p d)) "geekbench_multi" = FieldDict.getV d "geekbench_multi" := rfl

theorem gmk_passmark_single (p : CPUSpecification) (d : FieldDict) :
    FieldDict.getV (toDict (mkFilled p d)) "passmark_single" = FieldDict.getV d "passmark_single" := rfl

theorem gmk_passmark_multi (p : CPUSpecification) (d : FieldDict) :
    FieldDict.getV (toDict (mkFilled p d)) "passmark_multi" = FieldDict.getV d "passmark_multi" := rfl

theorem gmk_cinebench_single (p : CPUSpecification) (d : FieldDict) :
    FieldDict.getV (toDict (mkFilled p d)) "cinebench_single" = FieldDict.getV d "cinebench_single" := rfl

theorem gmk_cinebench_multi (p : CPUSpecification) (d : FieldDict) :
    FieldDict.getV (toDict (mkFilled p d)) "cinebench_multi" = FieldDict.getV d "cinebench_multi" := rfl

theorem gmk_image_url (p : CPUSpecification) (d : FieldDict) :
    FieldDict.getV (toDict (mkFilled p d)) "image_url" = FieldDict.getV d "image_url" := rfl

theorem fillFieldStep_fst_eq (cfg : MergeConfig) (acc1 acc2 : FieldDict × Stats)
    (kv : String × Option Value) (h : acc1.1 = acc2.1) :
    (fillFieldStep cfg acc1 kv).1 = (fillFieldStep cfg acc2 kv).1 := by
  unfold fillFieldStep
  rw [h]
  by_cases hp : kv.1 ∈ cfg.protected_fields
  · simp [hp]
  · rw [if_neg hp, if_neg hp]
    cases FieldDict.getV acc2.1 kv.1 <;> cases kv.2 <;> rfl

theorem fillFold_fst_eq (cfg : MergeConfig) (sd : FieldDict) :
    ∀ acc1 acc2 : FieldDict × Stats, acc1.1 = acc2.1 →
      (fillFold cfg acc1 sd).1 = (fillFold cfg acc2 sd).1 := by
  induction sd with
  | nil => intro acc1 acc2 h; exact h
  | cons kv rest ih =>
    intro acc1 acc2 h
    rw [fillFold, List.foldl_cons, fillFold, List.foldl_cons]
    exact ih _ _ (fillFieldStep_fst_eq cfg acc1 acc2 kv h)

theorem fillFieldStep_getV_ne (cfg : MergeConfig) (acc : FieldDict × Stats)
    (kv : String × Option Value) (k : String) (h : ¬(k = kv.1)) :
    FieldDict.getV ((fillFieldStep cfg acc kv).1) k = FieldDict.getV acc.1 k := by
  unfold fillFieldStep
  by_cases hp : kv.1 ∈ cfg.protected_fields
  · simp [hp]
  · rw [if_neg hp]
    cases hga : FieldDict.getV acc.1 kv.1 with
    | none =>
      cases kv.2 with
      | none => rfl
      | some v => exact getV_alSet_ne _ _ _ _ h
    | some cur => cases kv.2 <;> rfl

theorem fillFold_untouched (cfg : MergeConfig) (sd : FieldDict) (k : String)
    (hk : ∀ kv ∈ sd, ¬(kv.1 = k)) :
    ∀ acc : FieldDict × Stats,
      FieldDict.getV ((fillFold cfg acc sd).1) k = FieldDict.getV acc.1 k := by
  induction sd with
  | nil => intro acc; rfl
  | cons kv rest ih =>
    intro acc
    rw [fillFold, List.foldl_cons]
    rw [show rest.foldl (fillFieldStep cfg) (fillFieldStep cfg acc kv) =
      fillFold cfg (fillFieldStep cfg acc kv) rest from rfl]
    rw [ih (fun kv2 h2 => hk kv2 (List.mem_cons_of_mem kv h2))]
    exact fillFieldStep_getV_ne cfg acc kv k
      (fun he => hk kv (List.mem_cons_self kv rest) he.symm)

theorem fillFold_getV (cfg : MergeConfig) (sd : FieldDict)
    (hnd : (sd.map Prod.fst).Nodup) (k : String) :
    ∀ acc : FieldDict × Stats,
      FieldDict.getV ((fillFold cfg acc sd).1) k = FieldDict.getV acc.1 k ∨
      (FieldDict.getV acc.1 k = none ∧ k ∉ cfg.protected_fields ∧
       ∃ v, (k, some v) ∈ sd ∧
         FieldDict.getV ((fillFold cfg acc sd).1) k = some v) := by
  induction sd with
  | nil => intro acc; exact Or.inl rfl
  | cons kv rest ih =>
    intro acc
    obtain ⟨k0, v0⟩ := kv
    rw [List.map_cons, List.nodup_cons] at hnd
    obtain ⟨hk0, hndrest⟩ := hnd
    rw [fillFold, List.foldl_cons]
    rw [show rest.foldl (fillFieldStep cfg) (fillFieldStep cfg acc (k0, v0)) =
      fillFold cfg (fillFieldStep cfg acc (k0, v0)) rest from rfl]
    by_cases hkk : k0 = k
    · subst hkk
      have hrest : ∀ kv2 ∈ rest, ¬(kv2.1 = k0) := by
        intro kv2 h2 he
        have hm : kv2.1 ∈ rest.map Prod.fst := List.mem_map_of_mem Prod.fst h2
        rw [he] at hm
        exact hk0 hm
      rw [fillFold_untouched cfg rest k0 hrest]
      unfold fillFieldStep
      by_cases hp : (k0, v0).1 ∈ cfg.protected_fields
      · rw [if_pos hp]; exact Or.inl rfl
      · rw [if_neg hp]
        simp only
        cases hga : FieldDict.getV acc.1 k0 with
        | none =>
          cases v0 with
          | none => exact Or.inl hga
          | some v =>
            refine Or.inr ⟨rfl, hp, v, List.mem_cons_self _ _, ?_⟩
            exact getV_alSet_self acc.1 k0 v
        | some cur => cases v0 <;> exact Or.inl hga
    · have hstep : FieldDict.getV ((fillFieldStep cfg acc (k0, v0)).1) k =
          FieldDict.getV acc.1 k :=
        fillFieldStep_getV_ne cfg acc (k0, v0) k (fun he => hkk he.symm)
      rcases ih hndrest (fillFieldStep cfg acc (k0, v0)) with h1 | ⟨h1, h2, v, h3, h4⟩
      · exact Or.inl (h1.trans hstep)
      · exact Or.inr ⟨hstep ▸ h1, h2, v, List.mem_cons_of_mem _ h3, h4⟩

theorem getV_of_mem_nodup {sd : FieldDict} (hnd : (sd.map Prod.fst).Nodup)
    {k : String} {v : Value} (h : (k, some v) ∈ sd) : FieldDict.getV sd k = some v := by
  induction sd with
  | nil => exact absurd h (by simp)
  | cons kv rest ih =>
    obtain ⟨k0, v0⟩ := kv
    rw [List.map_cons, List.nodup_cons] at hnd
    obtain ⟨hk0, hndrest⟩ := hnd
    rcases List.mem_cons.1 h with he | hmem
    · injection he with he1 he2
      subst he1
      unfold FieldDict.getV alGet?
      rw [if_pos rfl]
      rw [← he2]
      rfl
    · have hne : ¬(k0 = k) := by
        intro he
        subst he
        have hm : (k0, some v).1 ∈ rest.map Prod.fst := List.mem_map_of_mem Prod.fst hmem
        exact hk0 hm
      unfold FieldDict.getV alGet?
      rw [if_neg hne]
      exact ih hndrest hmem

theorem getV_rel_of_forall2 {S : String → Option Value → Option Value → Prop}
    {l1 l2 : FieldDict}
    (h : List.Forall₂ (fun p q => p.1 = q.1 ∧ S p.1 p.2 q.2) l1 l2)
    (hnone : ∀ k, S k none none) :
    ∀ k, S k (FieldDict.getV l1 k) (FieldDict.getV l2 k) := by
  induction h with
  | nil => intro k; exact hnone k
  | cons hpq hrest ih =>
    rename_i p q l1' l2'
    intro k
    obtain ⟨kp, vp⟩ := p
    obtain ⟨kq, vq⟩ := q
    obtain ⟨hkeys, hS⟩ := hpq
    simp only at hkeys
    subst hkeys
    unfold FieldDict.getV alGet?
    by_cases hk : kp = k
    · rw [if_pos hk, if_pos hk]
      exact hk ▸ hS
    · rw [if_neg hk, if_neg hk]
      exact ih k

theorem fillSpecGaps_fst_eq (cfg : MergeConfig) (st1 st2 : Stats)
    (p s2 : CPUSpecification) :
    (fillSpecGaps cfg st1 p s2).1 = (fillSpecGaps cfg st2 p s2).1 := by
  unfold fillSpecGaps
  simp only
  rw [fillFold_fst_eq cfg (toDict s2) (toDict p, st1) (toDict p, st2) rfl]

theorem fillGaps_fold_map (cfg : MergeConfig) (idx : List (String × CPUSpecification))
    (l : List CPUSpecification) :
    ∀ (r0 : List CPUSpecification) (st : Stats),
      (l.foldl (fun acc sp =>
        match lookupSecondary idx sp with
        | some s2 =>
          let r := fillSpecGaps cfg acc.2 sp s2
          (acc.1 ++ [r.1], r.2)
        | none => (acc.1 ++ [sp], acc.2)) (r0, st)).1 =
      r0 ++ l.map (fun sp =>
        match lookupSecondary idx sp with
        | some s2 => (fillSpecGaps cfg ({} : Stats) sp s2).1
        | none => sp) := by
  induction l with
  | nil => intro r0 st; simp
  | cons sp rest ih =>
    intro r0 st
    rw [List.foldl_cons, List.map_cons]
    cases hl : lookupSecondary idx sp with
    | none =>
      simp only [hl]
      rw [ih]
      simp
    | some s2 =>
      simp only [hl]
      rw [ih]
      rw [fillSpecGaps_fst_eq cfg st ({} : Stats) sp s2]
      simp

theorem fillGaps_fst (cfg : MergeConfig) (st : Stats)
    (primary secondary : List CPUSpecification) :
    (fillGaps cfg st primary secondary).1 =
      primary.map (fun sp =>
        match lookupSecondary (buildSecondaryIndex secondary) sp with
        | some s2 => (fillSpecGaps cfg ({} : Stats) sp s2).1
        | none => sp) := by
  unfold fillGaps
  rw [fillGaps_fold_map cfg (buildSecondaryIndex secondary) primary [] st]
  simp

set_option maxRecDepth 8000 in

theorem alGet?_eq_none {α : Type} (d : List (String × α)) (k : String)
    (h : k ∉ d.map Prod.fst) : alGet? d k = none := by
  induction d with
  | nil => rfl
  | cons kv rest ih =>
    obtain ⟨k0, v0⟩ := kv
    rw [List.map_cons] at h
    rw [alGet?]
    rw [if_neg (fun he => h (by rw [← he]; exact List.mem_cons_self _ _))]
    exact ih (fun hm => h (List.mem_cons_of_mem _ hm))

theorem getV_toDict_not_mem (sp : CPUSpecification) (k : String)
    (hk : k ∉ fieldKeys) : FieldDict.getV (toDict sp) k = none := by
  unfold FieldDict.getV
  rw [alGet?_eq_none _ _ (by rw [toDict_keys]; exact hk)]
  rfl

set_option maxRecDepth 8000 in
set_option maxHeartbeats 1000000 in
theorem fillOne_frame (p s2 : CPUSpecification) :
    (fillSpecGaps ({} : MergeConfig) ({} : Stats) p s2).1.name = p.name ∧
    (fillSpecGaps ({} : MergeConfig) ({} : Stats) p s2).1.manufacturer = p.manufacturer ∧
    (fillSpecGaps ({} : MergeConfig) ({} : Stats) p s2).1.source = p.source ∧
    (∀ k, FieldDict.getV (toDict (fillSpecGaps ({} : MergeConfig) ({} : Stats) p s2).1) k ≠
        FieldDict.getV (toDict p) k →
      FieldDict.getV (toDict p) k = none ∧
      k ∉ ({} : MergeConfig).protected_fields ∧
      FieldDict.getV (toDict (fillSpecGaps ({} : MergeConfig) ({} : Stats) p s2).1) k =
        FieldDict.getV (toDict s2) k ∧
      FieldDict.getV (toDict (fillSpecGaps ({} : MergeConfig) ({} : Stats) p s2).1) k ≠ none) := by
  have hfs : (fillSpecGaps ({} : MergeConfig) ({} : Stats) p s2).1 =
      mkFilled p (fillFold ({} : MergeConfig) (toDict p, ({} : Stats)) (toDict s2)).1 := rfl
  have hnd : ((toDict s2).map Prod.fst).Nodup := by
    rw [toDict_keys]
    decide
  have hS : ∀ k,
      FieldDict.getV ((fillFold ({} : MergeConfig) (toDict p, ({} : Stats)) (toDict s2)).1) k ≠
        FieldDict.getV (toDict p) k →
      FieldDict.getV (toDict p) k = none ∧
      k ∉ ({} : MergeConfig).protected_fields ∧
      FieldDict.getV ((fillFold ({} : MergeConfig) (toDict p, ({} : Stats)) (toDict s2)).1) k =
        FieldDict.getV (toDict s2) k ∧
      FieldDict.getV ((fillFold ({} : MergeConfig) (toDict p, ({} : Stats)) (toDict s2)).1) k ≠
        none := by
    intro k hne
    rcases fillFold_getV ({} : MergeConfig) (toDict s2) hnd k (toDict p, ({} : Stats))
      with h1 | ⟨h1, h2, v, h3, h4⟩
    · exact absurd h1 hne
    · refine ⟨h1, h2, ?_, ?_⟩
      · rw [h4, getV_of_mem_nodup hnd h3]
      · rw [h4]; simp
  have hsc : FieldDict.getV
      ((fillFold ({} : MergeConfig) (toDict p, ({} : Stats)) (toDict s2)).1) "scraped_at" =
      some (.s p.scraped_at) := by
    rcases fillFold_getV ({} : MergeConfig) (toDict s2) hnd "scraped_at"
      (toDict p, ({} : Stats)) with h1 | ⟨h1, h2, v, h3, h4⟩
    · exact h1.trans rfl
    · rw [show FieldDict.getV (toDict p) "scraped_at" = some (.s p.scraped_at) from rfl] at h1
      simp at h1
  rw [hfs, mkFilled_name, mkFilled_manufacturer, mkFilled_source]
  refine ⟨rfl, rfl, rfl, ?_⟩
  intro k hne
  by_cases hk : k ∈ fieldKeys
  · simp only [fieldKeys, List.mem_cons, List.not_mem_nil, or_false] at hk
    rcases hk with rfl|rfl|rfl|rfl|rfl|rfl|rfl|rfl|rfl|rfl|rfl|rfl|rfl|rfl|rfl|rfl|rfl|rfl|rfl|rfl|rfl|rfl|rfl|rfl|rfl|rfl|rfl|rfl|rfl|rfl|rfl|rfl|rfl|rfl|rfl|rfl|rfl|rfl|rfl|rfl|rfl|rfl|rfl|rfl|rfl|rfl|rfl|rfl
    · rw [gmkName] at hne
      exact absurd rfl hne
    · rw [gmkManufacturer] at hne
      exact absurd rfl hne
    · rw [gmkSource] at hne
      exact absurd rfl hne
    · rw [gmk_source_url] at hne ⊢
      exact hS "source_url" hne
    · rw [gmk_source_id] at hne ⊢
      exact hS "source_id" hne
    · rw [gmk_cores] at hne ⊢
      exact hS "cores" hne
    · rw [gmk_threads] at hne ⊢
      exact hS "threads" hne
    · rw [gmk_p_cores] at hne ⊢
      exact hS "p_cores" hne
    · rw [gmk_e_cores] at hne ⊢
      exact hS "e_cores" hne
    · rw [gmk_base_clock] at hne ⊢
      exact hS "base_clock" hne
    · rw [gmk_boost_clock] at hne ⊢
      exact hS "boost_clock" hne
    · rw [gmk_p_core_base_clock] at hne ⊢
      exact hS "p_core_base_clock" hne
    · rw [gmk_p_core_boost_clock] at hne ⊢
      exact hS "p_core_boost_clock" hne
    · rw [gmk_e_core_base_clock] at hne ⊢
      exact hS "e_core_base_clock" hne
    · rw [gmk_e_core_boost_clock] at hne ⊢
      exact hS "e_core_boost_clock" hne
    · rw [gmk_l1_cache] at hne ⊢
      exact hS "l1_cache" hne
    · rw [gmk_l2_cache] at hne ⊢
      exact hS "l2_cache" hne
    · rw [gmk_l3_cache] at hne ⊢
      exact hS "l3_cache" hne
    · rw [gmk_tdp] at hne ⊢
      exact hS "tdp" hne
    · rw [gmk_base_power] at hne ⊢
      exact hS "base_power" hne
    · rw [gmk_max_turbo_power] at hne ⊢
      exact hS "max_turbo_power" hne
    · rw [gmk_codename] at hne ⊢
      exact hS "codename" hne
    · rw [gmk_microarchitecture] at hne ⊢
      exact hS "microarchitecture" hne
    · rw [gmk_generation] at hne ⊢
      exact hS "generation" hne
    · rw [gmk_socket_name] at hne ⊢
      exact hS "socket_name" hne
    · rw [gmk_process_node] at hne ⊢
      exact hS "process_node" hne
    · rw [gmk_transistors_million] at hne ⊢
      exact hS "transistors_million" hne
    · rw [gmk_die_size_mm2] at hne ⊢
      exact hS "die_size_mm2" hne
    · rw [gmk_memory_type] at hne ⊢
      exact hS "memory_type" hne
    · rw [gmk_memory_channels] at hne ⊢
      exact hS "memory_channels" hne
    · rw [gmk_max_memory_gb] at hne ⊢
      exact hS "max_memory_gb" hne
    · rw [gmk_memory_speed] at hne ⊢
      exact hS "memory_speed" hne
    · rw [gmk_has_integrated_gpu] at hne ⊢
      exact hS "has_integrated_gpu" hne
    · rw [gmk_integrated_gpu_name] at hne ⊢
      exact hS "integrated_gpu_name" hne
    · rw [gmk_pcie_version] at hne ⊢
      exact hS "pcie_version" hne
    · rw [gmk_pcie_lanes] at hne ⊢
      exact hS "pcie_lanes" hne
    · rw [gmk_launch_date] at hne ⊢
      exact hS "launch_date" hne
    · rw [gmk_launch_msrp] at hne ⊢
      exact hS "launch_msrp" hne
    · rw [gmk_is_released] at hne ⊢
      exact hS "is_released" hne
    · rw [gmk_is_discontinued] at hne ⊢
      exact hS "is_discontinued" hne
    · rw [gmk_geekbench_single] at hne ⊢
      exact hS "geekbench_single" hne
    · rw [gmk_geekbench_multi] at hne ⊢
      exact hS "geekbench_multi" hne
    · rw [gmk_passmark_single] at hne ⊢
      exact hS "passmark_single" hne
    · rw [gmk_passmark_multi] at hne ⊢
      exact hS "passmark_multi" hne
    · rw [gmk_cinebench_single] at hne ⊢
      exact hS "cinebench_single" hne
    · rw [gmk_cinebench_multi] at hne ⊢
      exact hS "cinebench_multi" hne
    · rw [gmk_image_url] at hne ⊢
      exact hS "image_url" hne
    · rw [gmkScrapedAt, hsc] at hne
      exact absurd rfl hne
  · rw [getV_toDict_not_mem _ _ hk, getV_toDict_not_mem _ _ hk] at hne
    exact absurd rfl hne

/-- Claim C10: frame property of `fill_gaps`.  For every primary and
secondary list, each output record corresponds one-to-one with a primary
record; its protected `name`, `manufacturer` and `source` fields equal the
primary's; and whenever any dictionary field of the output differs from
the primary's, the primary's value was `None`, the record had a matching
secondary record via the canonical-name index, the new value is exactly
that secondary record's value for the field, and it is non-null — so
`fill_gaps` never overwrites existing primary data. -/
theorem C10_fill_gaps_frame (st : Stats) (primary secondary : List CPUSpecification) :
    List.Forall₂ (fun q p =>
      q.name = p.name ∧ q.manufacturer = p.manufacturer ∧ q.source = p.source ∧
      ∀ k, FieldDict.getV (toDict q) k ≠ FieldDict.getV (toDict p) k →
        FieldDict.getV (toDict p) k = none ∧
        ∃ s2, lookupSecondary (buildSecondaryIndex secondary) p = some s2 ∧
          FieldDict.getV (toDict q) k = FieldDict.getV (toDict s2) k ∧
          FieldDict.getV (toDict q) k ≠ none)
      (fillGaps ({} : MergeConfig) st primary secondary).1 primary := by
  rw [fillGaps_fst]
  induction primary with
  | nil => exact List.Forall₂.nil
  | cons p rest ih =>
    rw [List.map_cons]
    refine List.Forall₂.cons ?_ ih
    cases hl : lookupSecondary (buildSecondaryIndex secondary) p with
    | none =>
      exact ⟨rfl, rfl, rfl, fun k hne => absurd rfl hne⟩
    | some s2 =>
      obtain ⟨h1, h2, h3, h4⟩ := fillOne_frame p s2
      refine ⟨h1, h2, h3, fun k hne => ?_⟩
      obtain ⟨hp, hprot, hsec, hnn⟩ := h4 k hne
      exact ⟨hp, s2, rfl, hsec, hnn⟩

/-! ### C4: conditional idempotence of the two normalizations -/

theorem toNat_ofNat_valid (n : Nat) (h : Nat.isValidChar n) :
    (Char.ofNat n).toNat = n := by
  unfold Char.ofNat Char.ofNatAux
  rw [dif_pos h]
  rfl

theorem isWs_of_lower_range (c : Char) (h : 97 ≤ c.toNat) : isWs c = false := by
  simp only [isWs, decide_eq_false_iff_not]
  rintro (rfl | rfl | rfl | rfl | rfl | rfl) <;> exact absurd h (by decide)

theorem asciiLower_toNat_upper (c : Char) (h : 65 ≤ c.toNat ∧ c.toNat ≤ 90) :
    (asciiLower c).toNat = c.toNat + 32 := by
  unfold asciiLower
  rw [if_pos h]
  exact toNat_ofNat_valid _ (Or.inl (by omega))

theorem asciiLower_not_upper (c : Char) (h : ¬(65 ≤ c.toNat ∧ c.toNat ≤ 90)) :
    asciiLower c = c := by
  unfold asciiLower
  rw [if_neg h]

theorem isWs_asciiLower (c : Char) : isWs (asciiLower c) = isWs c := by
  by_cases h : 65 ≤ c.toNat ∧ c.toNat ≤ 90
  · have h1 : isWs c = false := by
      simp only [isWs, decide_eq_false_iff_not]
      rintro (rfl | rfl | rfl | rfl | rfl | rfl) <;> exact absurd h (by decide)
    have h2 : isWs (asciiLower c) = false :=
      isWs_of_lower_range _ (by rw [asciiLower_toNat_upper c h]; omega)
    rw [h1, h2]
  · rw [asciiLower_not_upper c h]

theorem asciiLower_asciiLower (c : Char) :
    asciiLower (asciiLower c) = asciiLower c := by
  by_cases h : 65 ≤ c.toNat ∧ c.toNat ≤ 90
  · exact asciiLower_not_upper _ (by rw [asciiLower_toNat_upper c h]; omega)
  · rw [asciiLower_not_upper c h]
    exact asciiLower_not_upper c h

theorem asciiLower_space : asciiLower ' ' = ' ' := by decide

theorem lowerStr_idem (l : List Char) : lowerStr (lowerStr l) = lowerStr l := by
  unfold lowerStr
  rw [List.map_map]
  exact List.map_congr_left (fun a _ => asciiLower_asciiLower a)

theorem wsSubGo_lowerStr (b : Bool) (l : List Char) :
    wsSubGo b (lowerStr l) = lowerStr (wsSubGo b l) := by
  induction l generalizing b with
  | nil => rfl
  | cons c rest ih =>
    show wsSubGo b (asciiLower c :: lowerStr rest) = lowerStr (wsSubGo b (c :: rest))
    rw [wsSubGo, wsSubGo, isWs_asciiLower]
    have ih' : ∀ b, wsSubGo b (List.map asciiLower rest) =
        List.map asciiLower (wsSubGo b rest) := ih
    by_cases hw : isWs c = true
    · cases b <;> simp [hw, ih', lowerStr, asciiLower_space]
    · simp [hw, ih', lowerStr]

theorem dropWhile_lowerStr (l : List Char) :
    (lowerStr l).dropWhile isWs = lowerStr (l.dropWhile isWs) := by
  unfold lowerStr
  rw [List.dropWhile_map]
  have he : (isWs ∘ asciiLower) = isWs := funext isWs_asciiLower
  rw [he]

theorem reverse_lowerStr (l : List Char) :
    (lowerStr l).reverse = lowerStr l.reverse :=
  (List.map_reverse asciiLower l).symm

theorem trimWs_lowerStr (l : List Char) :
    trimWs (lowerStr l) = lowerStr (trimWs l) := by
  unfold trimWs
  rw [dropWhile_lowerStr, reverse_lowerStr, dropWhile_lowerStr, reverse_lowerStr]

theorem noWsRun_one (c : Char) : noWsRun [c] = (!isWs c || c = ' ') := rfl

theorem noWsRun_two (c d : Char) (r : List Char) :
    noWsRun (c :: d :: r) =
      ((!isWs c || (c = ' ' && !isWs d)) && noWsRun (d :: r)) := rfl

theorem noWsRun_cons (c : Char) (rest : List Char) (hc : isWs c = false)
    (h : noWsRun rest = true) : noWsRun (c :: rest) = true := by
  cases rest with
  | nil => simp [noWsRun, hc]
  | cons d r =>
    rw [noWsRun_two, Bool.and_eq_true]
    exact ⟨by simp [hc], h⟩

theorem noWsRun_tail (c : Char) (rest : List Char)
    (h : noWsRun (c :: rest) = true) : noWsRun rest = true := by
  cases rest with
  | nil => rfl
  | cons d r =>
    rw [noWsRun_two, Bool.and_eq_true] at h
    exact h.2

theorem noWsRun_ws_head (c : Char) (rest : List Char)
    (h : noWsRun (c :: rest) = true) (hws : isWs c = true) :
    c = ' ' ∧ ∀ d r, rest = d :: r → isWs d = false := by
  cases rest with
  | nil =>
    refine ⟨?_, fun d r he => List.noConfusion he⟩
    rw [noWsRun_one, hws] at h
    simpa using h
  | cons d r =>
    rw [noWsRun_two, Bool.and_eq_true] at h
    have h1 := h.1
    rw [hws] at h1
    simp only [Bool.not_true, Bool.false_or, Bool.and_eq_true, decide_eq_true_eq,
      Bool.not_eq_true'] at h1
    exact ⟨h1.1, fun d' r' he => by cases he; exact h1.2⟩

theorem wsSubGo_eq_self (l : List Char) (h : noWsRun l = true) :
    wsSubGo false l = l := by
  induction l with
  | nil => rfl
  | cons c rest ih =>
    by_cases hw : isWs c = true
    · obtain ⟨hsp, hrest⟩ := noWsRun_ws_head c rest h hw
      subst hsp
      rw [wsSubGo, if_pos hw, if_neg Bool.false_ne_true]
      have h2 := ih (noWsRun_tail _ rest h)
      cases rest with
      | nil => rfl
      | cons d r =>
        have hd : isWs d = false := hrest d r rfl
        rw [wsSubGo, if_neg (by simp [hd])]
        rw [wsSubGo, if_neg (by simp [hd])] at h2
        injection h2 with h2a h2b
        rw [h2b]
    · rw [wsSubGo, if_neg hw]
      rw [ih (noWsRun_tail c rest h)]

theorem head_not_ws_wsSubGo (l : List Char) :
    ∀ c r, wsSubGo true l = c :: r → isWs c = false := by
  induction l with
  | nil => intro c r h; cases h
  | cons d rest ih =>
    intro c r h
    by_cases hw : isWs d = true
    · rw [wsSubGo, if_pos hw, if_pos rfl] at h
      exact ih c r h
    · rw [wsSubGo, if_neg hw] at h
      injection h with h1 _
      rw [← h1]
      simpa using hw

theorem noWsRun_wsSubGo (l : List Char) :
    ∀ b, noWsRun (wsSubGo b l) = true := by
  induction l with
  | nil => intro b; rfl
  | cons c rest ih =>
    intro b
    by_cases hw : isWs c = true
    · rw [wsSubGo, if_pos hw]
      cases b with
      | true => rw [if_pos rfl]; exact ih true
      | false =>
        rw [if_neg Bool.false_ne_true]
        cases hz : wsSubGo true rest with
        | nil => decide
        | cons d r =>
          have hd := head_not_ws_wsSubGo rest d r hz
          have hrun := ih true
          rw [hz] at hrun
          rw [noWsRun_two, Bool.and_eq_true]
          exact ⟨by simp [hd], hrun⟩
    · rw [wsSubGo, if_neg hw]
      exact noWsRun_cons c _ (by simpa using hw) (ih false)

theorem noWsRun_append_right (X Y : List Char)
    (h : noWsRun (X ++ Y) = true) : noWsRun Y = true := by
  induction X with
  | nil => exact h
  | cons c X' ih => exact ih (noWsRun_tail c _ h)

theorem noWsRun_or_head (c : Char) (rest : List Char)
    (h : noWsRun (c :: rest) = true) : (!isWs c || c = ' ') = true := by
  cases rest with
  | nil => exact h
  | cons d r =>
    rw [noWsRun_two, Bool.and_eq_true] at h
    have h1 := h.1
    rcases Bool.or_eq_true_iff.1 h1 with h2 | h2
    · exact Bool.or_eq_true_iff.2 (Or.inl h2)
    · rw [Bool.and_eq_true] at h2
      exact Bool.or_eq_true_iff.2 (Or.inr h2.1)

theorem noWsRun_append_left (X Y : List Char)
    (h : noWsRun (X ++ Y) = true) : noWsRun X = true := by
  induction X with
  | nil => rfl
  | cons c X' ih =>
    have hX' := ih (noWsRun_tail c _ h)
    cases X' with
    | nil => exact noWsRun_or_head c Y h
    | cons d X'' =>
      simp only [List.cons_append] at h
      rw [noWsRun_two, Bool.and_eq_true] at h ⊢
      exact ⟨h.1, hX'⟩

theorem head_dropWhile_not (p : Char → Bool) (l : List Char) :
    ∀ c r, l.dropWhile p = c :: r → p c = false := by
  induction l with
  | nil => intro c r h; cases h
  | cons d rest ih =>
    intro c r h
    rw [List.dropWhile_cons] at h
    by_cases hd : p d = true
    · rw [if_pos hd] at h; exact ih c r h
    · rw [if_neg hd] at h
      injection h with h1 _
      rw [← h1]
      simpa using hd

theorem dropWhile_eq_self_of_head (p : Char → Bool) (l : List Char)
    (h : ∀ c r, l = c :: r → p c = false) : l.dropWhile p = l := by
  cases l with
  | nil => rfl
  | cons c r =>
    rw [List.dropWhile_cons, if_neg (by simp [h c r rfl])]

theorem trimWs_decomp (l : List Char) :
    l = l.takeWhile isWs ++
      (trimWs l ++ ((l.dropWhile isWs).reverse.takeWhile isWs).reverse) := by
  conv_lhs => rw [← List.takeWhile_append_dropWhile isWs l]
  congr 1
  conv_lhs => rw [← List.reverse_reverse (l.dropWhile isWs),
    ← List.takeWhile_append_dropWhile isWs (l.dropWhile isWs).reverse]
  rw [List.reverse_append]
  rfl

theorem noWsRun_trimWs (l : List Char) (h : noWsRun l = true) :
    noWsRun (trimWs l) = true := by
  have hd := trimWs_decomp l
  rw [hd] at h
  exact noWsRun_append_left _ _ (noWsRun_append_right _ _ h)

theorem trimWs_head (l : List Char) :
    ∀ c r, trimWs l = c :: r → isWs c = false := by
  intro c r h
  have hM : l.dropWhile isWs =
      trimWs l ++ ((l.dropWhile isWs).reverse.takeWhile isWs).reverse := by
    conv_lhs => rw [← List.reverse_reverse (l.dropWhile isWs),
      ← List.takeWhile_append_dropWhile isWs (l.dropWhile isWs).reverse]
    rw [List.reverse_append]
    rfl
  rw [h] at hM
  exact head_dropWhile_not isWs l c _ hM

theorem trimWs_last (l : List Char) :
    ∀ c r, (trimWs l).reverse = c :: r → isWs c = false := by
  intro c r h
  rw [show (trimWs l).reverse = (l.dropWhile isWs).reverse.dropWhile isWs from
    List.reverse_reverse _] at h
  exact head_dropWhile_not isWs _ c r h

theorem trimWs_eq_self (l : List Char)
    (hh : ∀ c r, l = c :: r → isWs c = false)
    (hl : ∀ c r, l.reverse = c :: r → isWs c = false) : trimWs l = l := by
  unfold trimWs
  rw [dropWhile_eq_self_of_head isWs l hh]
  rw [dropWhile_eq_self_of_head isWs l.reverse hl]
  exact List.reverse_reverse l

theorem trimWs_trimWs (l : List Char) : trimWs (trimWs l) = trimWs l :=
  trimWs_eq_self _ (trimWs_head l) (trimWs_last l)

theorem normalizeName_data (s : String) (hne : ¬(s = "")) :
    (normalizeName s).data =
      lowerStr (trimWs (wsSubGo false (normStripPhaseChars (trimWs s.data)))) := by
  unfold normalizeName
  rw [if_neg hne]

theorem normalizeName_idem_of_fix (s : String)
    (hfix : normStripPhase (normalizeName s) = normalizeName s) :
    normalizeName (normalizeName s) = normalizeName s := by
  by_cases h0 : normalizeName s = ""
  · rw [h0]
    decide
  · set t := normalizeName s with ht
    have hfl : normStripPhaseChars t.data = t.data := congrArg String.data hfix
    by_cases hs0 : s = ""
    · exact absurd (by rw [ht, hs0]; decide) h0
    · have hdata : t.data =
          lowerStr (trimWs (wsSubGo false (normStripPhaseChars (trimWs s.data)))) :=
        normalizeName_data s hs0
      have hCtrim : trimWs (trimWs (wsSubGo false (normStripPhaseChars (trimWs s.data)))) =
          trimWs (wsSubGo false (normStripPhaseChars (trimWs s.data))) := trimWs_trimWs _
      have hCrun : noWsRun (trimWs (wsSubGo false (normStripPhaseChars (trimWs s.data)))) =
          true := noWsRun_trimWs _ (noWsRun_wsSubGo _ false)
      have hCws : wsSubGo false (trimWs (wsSubGo false (normStripPhaseChars (trimWs s.data)))) =
          trimWs (wsSubGo false (normStripPhaseChars (trimWs s.data))) :=
        wsSubGo_eq_self _ hCrun
      have e1 : trimWs t.data = t.data := by
        rw [hdata, trimWs_lowerStr, hCtrim]
      have e2 : wsSubGo false t.data = t.data := by
        rw [hdata, wsSubGo_lowerStr, hCws]
      have e3 : lowerStr t.data = t.data := by
        rw [hdata, lowerStr_idem]
      have hd2 : (normalizeName t).data = t.data := by
        rw [normalizeName_data t h0, e1, hfl, e2, e1, e3]
      exact congrArg String.mk hd2

theorem ciPfx_mem (w : List Char) :
    ∀ l rest, ciPfx w l = some rest → ∀ c ∈ rest, c ∈ l := by
  induction w with
  | nil =>
    intro l rest h c hc
    injection h with h1
    rw [← h1] at hc
    exact hc
  | cons p ps ih =>
    intro l rest h c hc
    cases l with
    | nil => cases h
    | cons a as =>
      rw [ciPfx] at h
      by_cases ha : asciiLower a = asciiLower p
      · rw [if_pos ha] at h
        exact List.mem_cons_of_mem a (ih as rest h c hc)
      · rw [if_neg ha] at h
        cases h

theorem stripPfxWord_mem (w l : List Char) :
    ∀ c ∈ stripPfxWord w l, c ∈ l := by
  unfold stripPfxWord
  cases hp : ciPfx w l with
  | none => intro c hc; exact hc
  | some rest =>
    cases rest with
    | nil => intro c hc; exact hc
    | cons d r =>
      show ∀ c ∈ (if isWs d = true then (d :: r).dropWhile isWs else l), c ∈ l
      by_cases hd : isWs d = true
      · rw [if_pos hd]
        intro c hc
        exact ciPfx_mem w l _ hp c (List.Sublist.subset (List.dropWhile_sublist _) hc)
      · rw [if_neg hd]
        intro c hc
        exact hc

theorem stripMfrPat_mem (l : List Char) : ∀ c ∈ stripMfrPat l, c ∈ l := by
  unfold stripMfrPat
  cases hp : ciPfx "intel".data l with
  | none => exact stripPfxWord_mem _ l
  | some rest =>
    cases rest with
    | nil => intro c hc; exact hc
    | cons d r =>
      show ∀ c ∈ (if isWs d = true then (d :: r).dropWhile isWs else l), c ∈ l
      by_cases hd : isWs d = true
      · rw [if_pos hd]
        intro c hc
        exact ciPfx_mem _ l _ hp c (List.Sublist.subset (List.dropWhile_sublist _) hc)
      · rw [if_neg hd]
        intro c hc
        exact hc

theorem stripSfxWord_mem (w l : List Char) :
    ∀ c ∈ stripSfxWord w l, c ∈ l := by
  unfold stripSfxWord
  cases hp : ciPfx w.reverse l.reverse with
  | none => intro c hc; exact hc
  | some rest =>
    cases rest with
    | nil => intro c hc; exact hc
    | cons d r =>
      show ∀ c ∈ (if isWs d = true then ((d :: r).dropWhile isWs).reverse else l), c ∈ l
      by_cases hd : isWs d = true
      · rw [if_pos hd]
        intro c hc
        rw [List.mem_reverse] at hc
        have h2 := ciPfx_mem _ _ _ hp c
          (List.Sublist.subset (List.dropWhile_sublist _) hc)
        exact List.mem_reverse.1 h2
      · rw [if_neg hd]
        intro c hc
        exact hc

theorem stripParen_mem (l : List Char) : ∀ c ∈ stripParen l, c ∈ l := by
  induction l with
  | nil => intro c hc; cases hc
  | cons a rest ih =>
    rw [stripParen]
    by_cases hp : parenAt (a :: rest) = true
    · rw [if_pos hp]; intro c hc; cases hc
    · rw [if_neg hp]
      intro c hc
      rcases List.mem_cons.1 hc with h | h
      · exact h ▸ List.mem_cons_self a rest
      · exact List.mem_cons_of_mem a (ih c h)

theorem stripWSlash_mem (l : List Char) : ∀ c ∈ stripWSlash l, c ∈ l := by
  induction l with
  | nil => intro c hc; cases hc
  | cons a rest ih =>
    rw [stripWSlash]
    by_cases hp : wSlashAt (a :: rest) = true
    · rw [if_pos hp]; intro c hc; cases hc
    · rw [if_neg hp]
      intro c hc
      rcases List.mem_cons.1 hc with h | h
      · exact h ▸ List.mem_cons_self a rest
      · exact List.mem_cons_of_mem a (ih c h)

theorem stripWith_mem (l : List Char) : ∀ c ∈ stripWith l, c ∈ l := by
  induction l with
  | nil => intro c hc; cases hc
  | cons a rest ih =>
    rw [stripWith]
    by_cases hp : withAt (a :: rest) = true
    · rw [if_pos hp]; intro c hc; cases hc
    · rw [if_neg hp]
      intro c hc
      rcases List.mem_cons.1 hc with h | h
      · exact h ▸ List.mem_cons_self a rest
      · exact List.mem_cons_of_mem a (ih c h)

theorem dashSubGo_mem (l : List Char) :
    ∀ b, ∀ c ∈ dashSubGo b l, c ∈ l ∨ c = ' ' := by
  induction l with
  | nil => intro b c hc; cases hc
  | cons a rest ih =>
    intro b c hc
    rw [dashSubGo] at hc
    by_cases ha : (a = '-' ∨ a = '_')
    · rw [if_pos ha] at hc
      cases b with
      | true =>
        rw [if_pos rfl] at hc
        rcases ih true c hc with h | h
        · exact Or.inl (List.mem_cons_of_mem a h)
        · exact Or.inr h
      | false =>
        rw [if_neg Bool.false_ne_true] at hc
        rcases List.mem_cons.1 hc with h | h
        · exact Or.inr h
        · rcases ih true c h with h2 | h2
          · exact Or.inl (List.mem_cons_of_mem a h2)
          · exact Or.inr h2
    · rw [if_neg ha] at hc
      rcases List.mem_cons.1 hc with h | h
      · exact Or.inl (h ▸ List.mem_cons_self a rest)
      · rcases ih false c h with h2 | h2
        · exact Or.inl (List.mem_cons_of_mem a h2)
        · exact Or.inr h2

theorem canonStripChars_mem (l : List Char) :
    ∀ c ∈ canonStripChars l, c ∈ l ∨ c = ' ' := by
  intro c hc
  unfold canonStripChars at hc
  rcases dashSubGo_mem _ false c hc with h | h
  · have h1 := stripWith_mem _ c h
    have h2 := stripWSlash_mem _ c h1
    have h3 := stripParen_mem _ c h2
    have h4 : c ∈ stripSfxWord "processor".data (stripMfrPat l) :=
      List.mem_of_mem_filter h3
    have h5 := stripSfxWord_mem _ _ c h4
    exact Or.inl (stripMfrPat_mem l c h5)
  · exact Or.inr h

theorem wordsGo_mem (l : List Char) :
    ∀ cur w, w ∈ wordsGo cur l → ∀ c ∈ w, c ∈ cur ∨ c ∈ l := by
  induction l with
  | nil =>
    intro cur w hw c hc
    rw [wordsGo] at hw
    by_cases hcur : cur.isEmpty = true
    · rw [if_pos hcur] at hw; cases hw
    · rw [if_neg hcur] at hw
      have he : w = cur.reverse := List.mem_singleton.1 hw
      subst he
      exact Or.inl (List.mem_reverse.1 hc)
  | cons a rest ih =>
    intro cur w hw c hc
    rw [wordsGo] at hw
    by_cases ha : isWs a = true
    · rw [if_pos ha] at hw
      by_cases hcur : cur.isEmpty = true
      · rw [if_pos hcur] at hw
        rcases ih [] w hw c hc with h | h
        · cases h
        · exact Or.inr (List.mem_cons_of_mem a h)
      · rw [if_neg hcur] at hw
        rcases List.mem_cons.1 hw with h | h
        · subst h
          exact Or.inl (List.mem_reverse.1 hc)
        · rcases ih [] w h c hc with h2 | h2
          · cases h2
          · exact Or.inr (List.mem_cons_of_mem a h2)
    · rw [if_neg ha] at hw
      rcases ih (a :: cur) w hw c hc with h2 | h2
      · rcases List.mem_cons.1 h2 with h3 | h3
        · exact Or.inr (h3 ▸ List.mem_cons_self a rest)
        · exact Or.inl h3
      · exact Or.inr (List.mem_cons_of_mem a h2)

theorem joinSpace_mem (ws : List (List Char)) :
    ∀ c ∈ joinSpace ws, (∃ w ∈ ws, c ∈ w) ∨ c = ' ' := by
  induction ws with
  | nil => intro c hc; cases hc
  | cons w ws' ih =>
    cases ws' with
    | nil =>
      intro c hc
      exact Or.inl ⟨w, List.mem_cons_self w [], hc⟩
    | cons w2 ws'' =>
      intro c hc
      rw [show joinSpace (w :: w2 :: ws'') = w ++ ' ' :: joinSpace (w2 :: ws'')
        from rfl] at hc
      rcases List.mem_append.1 hc with h | h
      · exact Or.inl ⟨w, List.mem_cons_self w _, h⟩
      · rcases List.mem_cons.1 h with h2 | h2
        · exact Or.inr h2
        · rcases ih c h2 with ⟨w', hw', hcw⟩ | h3
          · exact Or.inl ⟨w', List.mem_cons_of_mem w hw', hcw⟩
          · exact Or.inr h3

theorem asciiLower_mem_lowerStr (l : List Char) (c : Char) (hc : c ∈ lowerStr l) :
    asciiLower c = c := by
  unfold lowerStr at hc
  rcases List.mem_map.1 hc with ⟨a, _, ha⟩
  rw [← ha]
  exact asciiLower_asciiLower a

theorem lowerStr_fix_of_mem (l : List Char) (h : ∀ c ∈ l, asciiLower c = c) :
    lowerStr l = l := by
  unfold lowerStr
  conv_rhs => rw [← List.map_id l]
  exact List.map_congr_left h

theorem wordsGo_good (l : List Char) :
    ∀ cur, (∀ c ∈ cur, isWs c = false) →
      ∀ w ∈ wordsGo cur l, w ≠ [] ∧ ∀ c ∈ w, isWs c = false := by
  induction l with
  | nil =>
    intro cur hcur w hw
    rw [wordsGo] at hw
    by_cases hc : cur.isEmpty = true
    · rw [if_pos hc] at hw; cases hw
    · rw [if_neg hc] at hw
      have he : w = cur.reverse := List.mem_singleton.1 hw
      subst he
      constructor
      · intro he2
        exact hc (by rw [List.isEmpty_iff]; rwa [List.reverse_eq_nil_iff] at he2)
      · intro c hcw
        exact hcur c (List.mem_reverse.1 hcw)
  | cons a rest ih =>
    intro cur hcur w hw
    rw [wordsGo] at hw
    by_cases ha : isWs a = true
    · rw [if_pos ha] at hw
      by_cases hc : cur.isEmpty = true
      · rw [if_pos hc] at hw
        exact ih [] (by intro c hc2; cases hc2) w hw
      · rw [if_neg hc] at hw
        rcases List.mem_cons.1 hw with h | h
        · subst h
          refine ⟨?_, fun c hcw => hcur c (List.mem_reverse.1 hcw)⟩
          intro he2
          exact hc (by rw [List.isEmpty_iff]; rwa [List.reverse_eq_nil_iff] at he2)
        · exact ih [] (by intro c hc2; cases hc2) w h
    · rw [if_neg ha] at hw
      refine ih (a :: cur) ?_ w hw
      intro c hc2
      rcases List.mem_cons.1 hc2 with h | h
      · rw [h]; simpa using ha
      · exact hcur c h

theorem wordsGo_across (w : List Char) (hw : ∀ c ∈ w, isWs c = false) :
    ∀ cur rest, wordsGo cur (w ++ rest) = wordsGo (w.reverse ++ cur) rest := by
  induction w with
  | nil => intro cur rest; rfl
  | cons a w' ih =>
    intro cur rest
    have ha : isWs a = false := hw a (List.mem_cons_self a w')
    rw [List.cons_append, wordsGo, if_neg (by simp [ha])]
    rw [ih (fun c hc => hw c (List.mem_cons_of_mem a hc)) (a :: cur) rest]
    rw [List.reverse_cons, List.append_assoc]
    rfl

theorem wordsGo_joinSpace (ws : List (List Char))
    (h : ∀ w ∈ ws, w ≠ [] ∧ ∀ c ∈ w, isWs c = false) :
    wordsGo [] (joinSpace ws) = ws := by
  induction ws with
  | nil => rfl
  | cons w ws' ih =>
    obtain ⟨hne, hnws⟩ := h w (List.mem_cons_self w ws')
    cases ws' with
    | nil =>
      show wordsGo [] w = [w]
      have hac := wordsGo_across w hnws [] []
      simp only [List.append_nil] at hac
      rw [hac]
      rw [wordsGo, if_neg (by simp [List.isEmpty_iff, List.reverse_eq_nil_iff, hne])]
      rw [List.reverse_reverse]
    | cons w2 ws'' =>
      show wordsGo [] (w ++ ' ' :: joinSpace (w2 :: ws'')) = w :: w2 :: ws''
      rw [wordsGo_across w hnws [] _, List.append_nil]
      rw [wordsGo, if_pos (show isWs ' ' = true by decide)]
      rw [if_neg (by simp [List.isEmpty_iff, List.reverse_eq_nil_iff, hne])]
      rw [List.reverse_reverse]
      rw [ih (fun w' hw' => h w' (List.mem_cons_of_mem w hw'))]

theorem canonStripPhase_data (u : String) :
    (canonStripPhase u).data = canonStripChars u.data := rfl

theorem getCanonicalName_data (s : String) :
    (getCanonicalName s).data = joinSplit (canonStripChars (lowerStr s.data)) := rfl

theorem canon_fix_aux (t : String) (Y : List Char)
    (hdata : t.data = joinSplit (canonStripChars (lowerStr Y)))
    (hfl : canonStripChars t.data = t.data) :
    getCanonicalName t = t := by
  have hlow : lowerStr t.data = t.data := by
    refine lowerStr_fix_of_mem _ ?_
    intro c hc
    rw [hdata] at hc
    unfold joinSplit at hc
    rcases joinSpace_mem _ c hc with ⟨w, hw, hcw⟩ | h
    · rcases wordsGo_mem _ [] w hw c hcw with h2 | h2
      · cases h2
      · rcases canonStripChars_mem _ c h2 with h3 | h3
        · exact asciiLower_mem_lowerStr _ c h3
        · rw [h3]; exact asciiLower_space
    · rw [h]; exact asciiLower_space
  have hjs : joinSplit t.data = t.data := by
    rw [hdata]
    unfold joinSplit
    rw [wordsGo_joinSpace (wordsGo [] (canonStripChars (lowerStr Y)))
      (wordsGo_good _ [] (by intro c hc; cases hc))]
  have hd2 : (getCanonicalName t).data = t.data := by
    rw [getCanonicalName_data t, hlow, hfl, hjs]
  exact congrArg String.mk hd2

theorem getCanonicalName_idem_of_fix (s : String)
    (hfix : canonStripPhase (getCanonicalName s) = getCanonicalName s) :
    getCanonicalName (getCanonicalName s) = getCanonicalName s := by
  refine canon_fix_aux (getCanonicalName s) s.data (getCanonicalName_data s) ?_
  have h2 := congrArg String.data hfix
  rw [canonStripPhase_data] at h2
  exact h2

/-- Claim C4 (amended): conditional idempotence of the two normalizations.
Full idempotence fails (see the counterexample), because each call strips
at most one manufacturer-prefix occurrence per pattern.  But whenever the
once-normalized name is a fixed point of the pattern-stripping phase —
which holds for every ordinary single-prefix CPU name — a second
application of `CpuMatcher.normalize` (resp. of
`CPUNameMatcher.get_canonical_name`) changes nothing: the remaining
phases (lowercasing, whitespace collapse, strip / dash substitution) are
idempotent on their own output. -/
theorem C4_conditional_idempotence (s t : String)
    (hn : normStripPhase (normalizeName s) = normalizeName s)
    (hc : canonStripPhase (getCanonicalName t) = getCanonicalName t) :
    normalizeName (normalizeName s) = normalizeName s ∧
    getCanonicalName (getCanonicalName t) = getCanonicalName t :=
  ⟨normalizeName_idem_of_fix s hn, getCanonicalName_idem_of_fix t hc⟩

/-- Witness for C4: the hypotheses hold for the concrete name
`"Intel Core i9-14900K"`, and both normalizations are idempotent on it. -/
theorem C4_conditional_idempotence_witness :
    (normStripPhase (normalizeName "Intel Core i9-14900K") =
        normalizeName "Intel Core i9-14900K" ∧
      canonStripPhase (getCanonicalName "Intel Core i9-14900K") =
        getCanonicalName "Intel Core i9-14900K") ∧
    (normalizeName (normalizeName "Intel Core i9-14900K") =
        normalizeName "Intel Core i9-14900K" ∧
      getCanonicalName (getCanonicalName "Intel Core i9-14900K") =
        getCanonicalName "Intel Core i9-14900K") :=
  ⟨⟨by decide, by decide⟩,
    C4_conditional_idempotence "Intel Core i9-14900K" "Intel Core i9-14900K"
      (by decide) (by decide)⟩
